import Mathlib

/-
Shallow embedding of the ublox-sockets socket-management layer
(src/lib.rs, src/set.rs, src/tcp.rs, src/udp.rs, src/tcp_listener.rs,
src/udp_listener.rs) together with proofs about its operations.

Modelling conventions:
  * Timestamps and durations are natural numbers of milliseconds.  The
    source compares `embedded_time` durations after converting them to
    `Milliseconds<u32>`; for a millisecond-resolution clock this
    conversion is exact, and `Instant::checked_duration_since` is
    modelled by `checkedDurationSince` below (it yields `none` when the
    first instant is earlier than the second).
  * `heapless::Vec<Option<Socket>, N>` becomes `List (Option Socket)`.
  * Machine integers (`u8` handles, `u16` ports, `usize` sizes) are
    modelled as `Nat`; none of the verified operations can overflow
    them, since they only compare and copy these values.
  * Fallible Rust functions returning `Result<T, E>` become Lean
    functions returning `Except E T`; functions that also mutate `self`
    additionally return the updated state.
-/

set_option autoImplicit false

namespace UbloxSockets

/-- Error type of the networking stack, from `src/lib.rs` (the
`ListenerError` variant is the listener-specific error used by
`src/udp_listener.rs`). -/
inductive Error where
  | Exhausted
  | Illegal
  | Unaddressable
  | Timer
  | Timeout
  | SocketClosed
  | BadLength
  | NotBound
  | SocketSetFull
  | InvalidSocket
  | DuplicateSocket
  | ListenerError
  deriving DecidableEq, Repr

/-- Rust `Result<T>` from `src/lib.rs`. -/
abbrev Result (T : Type) := Except Error T

instance {E A : Type} [DecidableEq E] [DecidableEq A] : DecidableEq (Except E A) :=
  fun x y =>
    match x, y with
    | Except.error a, Except.error b => decidable_of_iff (a = b) (by simp)
    | Except.ok a, Except.ok b => decidable_of_iff (a = b) (by simp)
    | Except.error _, Except.ok _ => isFalse (by simp)
    | Except.ok _, Except.error _ => isFalse (by simp)

/-- Socket addresses are opaque values for this development; only
equality of addresses is ever inspected by the verified code. -/
abbrev SocketAddr := Nat

/-- Socket handles (`Handle(pub u8)` in `src/set.rs`); the `u8` payload
is modelled as a `Nat`, only ever compared for equality. -/
abbrev SocketHandle := Nat

/-- `Instant::checked_duration_since` for a millisecond clock: the
duration from `last` to `ts`, or `none` when `ts` is earlier. -/
def checkedDurationSince (ts last : Nat) : Option Nat :=
  if last ≤ ts then some (ts - last) else none

/-- Connection state of a TCP socket, from `src/tcp.rs` (`State<CLK>`).
The instant stored by `ShutdownForWrite` is the close timestamp. -/
inductive TcpState where
  | Created
  | WaitingForConnect (addr : SocketAddr)
  | Connected (addr : SocketAddr)
  | ShutdownForWrite (closedTime : Nat)
  deriving DecidableEq, Repr

/-- A TCP socket, from `src/tcp.rs` (`TcpSocket<CLK, L>`).  The receive
ring buffer is modelled by the list of its queued bytes;
`check_interval` and `read_timeout` are kept in milliseconds
(`Seconds(15)` in the source becomes `15000`). -/
structure TcpSocket where
  handle : SocketHandle
  state : TcpState
  checkInterval : Nat
  readTimeout : Option Nat
  availableData : Nat
  rxBuffer : List Nat
  lastCheckTime : Option Nat
  deriving DecidableEq, Repr

namespace TcpSocket

/-- `TcpSocket::new(socket_id)` from `src/tcp.rs`. -/
def new (socketId : Nat) : TcpSocket :=
  { handle := socketId
    state := TcpState.Created
    rxBuffer := []
    availableData := 0
    checkInterval := 15000
    readTimeout := some 15000
    lastCheckTime := none }

/-- `TcpSocket::is_connected` from `src/tcp.rs`. -/
def is_connected (s : TcpSocket) : Bool :=
  match s.state with
  | TcpState.Connected _ => true
  | _ => false

/-- `TcpSocket::may_recv` from `src/tcp.rs`: `Connected` and
`ShutdownForWrite` may receive, and otherwise a non-empty receive
buffer may still be drained. -/
def may_recv (s : TcpSocket) : Bool :=
  match s.state with
  | TcpState.Connected _ => true
  | TcpState.ShutdownForWrite _ => true
  | _ => !s.rxBuffer.isEmpty

/-- `TcpSocket::can_recv` from `src/tcp.rs`; buffer fullness is checked
against the ring-buffer capacity `L`. -/
def can_recv (L : Nat) (s : TcpSocket) : Bool :=
  if !s.may_recv then false else !(decide (L ≤ s.rxBuffer.length))

/-- `TcpSocket::should_update_available_data(ts)` from `src/tcp.rs`:
returns the boolean answer together with the updated socket
(`last_check_time` is replaced by `ts` exactly on a `true` answer). -/
def should_update_available_data (ts : Nat) (s : TcpSocket) :
    Bool × TcpSocket :=
  if !s.is_connected then (false, s)
  else
    let shouldUpdate :=
      match s.lastCheckTime with
      | none => true
      | some last =>
        match checkedDurationSince ts last with
        | none => true
        | some dur => decide (s.checkInterval ≤ dur)
    if shouldUpdate then (true, { s with lastCheckTime := some ts })
    else (false, s)

/-- `TcpSocket::recycle(ts)` from `src/tcp.rs`. -/
def recycle (ts : Nat) (s : TcpSocket) : Bool :=
  match s.readTimeout with
  | some readTimeout =>
    match s.state with
    | TcpState.Created => false
    | TcpState.WaitingForConnect _ => false
    | TcpState.Connected _ => false
    | TcpState.ShutdownForWrite closedTime =>
      match checkedDurationSince ts closedTime with
      | none => false
      | some dur => decide (readTimeout ≤ dur)
  | none => false

/-- `TcpSocket::set_state` from `src/tcp.rs`. -/
def set_state (st : TcpState) (s : TcpSocket) : TcpSocket :=
  { s with state := st }

/-- `TcpSocket::set_available_data` from `src/tcp.rs`. -/
def set_available_data (n : Nat) (s : TcpSocket) : TcpSocket :=
  { s with availableData := n }

/-- `TcpSocket::closed_by_remote(ts)` from `src/tcp.rs`. -/
def closed_by_remote (ts : Nat) (s : TcpSocket) : TcpSocket :=
  (s.set_state (TcpState.ShutdownForWrite ts)).set_available_data 0

end TcpSocket

/-
The ring buffer (`src/ring_buffer.rs`) is not part of the provided
sources; only its callers are.  The dequeue/peek primitives used by the
receive path are therefore modelled from the spec.
-/

/-- Modelled from the spec: `RingBuffer::dequeue_many_with(f)`
(src/ring_buffer.rs is missing from the sources).  The callback
receives the readable span and reports how many elements it consumed;
exactly that many elements are removed.  In this list model the whole
buffer content is one contiguous span. -/
def dequeueManyWith {R : Type} (f : List Nat → Nat × R) (buf : List Nat) :
    (Nat × R) × List Nat :=
  let nr := f buf
  (nr, buf.drop nr.1)

/-- Modelled from the spec: `RingBuffer::dequeue_many_with_wrapping(f)`
(src/ring_buffer.rs is missing from the sources).  The callback receives
the first readable span and, when the read wraps the physical end of
the buffer, a second span; the list model is never physically wrapped,
so the second span is `none`. -/
def dequeueManyWithWrapping {R : Type} (f : List Nat → Option (List Nat) → Nat × R)
    (buf : List Nat) : (Nat × R) × List Nat :=
  let nr := f buf none
  (nr, buf.drop nr.1)

/-- Modelled from the spec: `RingBuffer::dequeue_slice(out)`
(src/ring_buffer.rs is missing from the sources).  Copies up to
`out.len()` buffered bytes into `out`, removes them and returns the
count; the result is the copied bytes together with the rest of the
buffer. -/
def dequeueSlice (outLen : Nat) (buf : List Nat) : Nat × List Nat :=
  ((buf.take outLen).length, buf.drop outLen)

/-- Modelled from the spec: `RingBuffer::get_allocated(0, size)`
(src/ring_buffer.rs is missing from the sources).  A read-only view of
at most `size` bytes from the front of the buffer, truncated to the
available data. -/
def getAllocated (size : Nat) (buf : List Nat) : List Nat :=
  buf.take size

namespace TcpSocket

/-- `TcpSocket::recv_impl(f)` from `src/tcp.rs`: fails with `Illegal`
unless `may_recv()` holds, otherwise applies the buffer operation. -/
def recv_impl {R : Type} (f : List Nat → (Nat × R) × List Nat) (s : TcpSocket) :
    Result R × TcpSocket :=
  if !s.may_recv then (Except.error Error.Illegal, s)
  else
    let r := f s.rxBuffer
    (Except.ok r.1.2, { s with rxBuffer := r.2 })

/-- `TcpSocket::recv(f)` from `src/tcp.rs`. -/
def recv {R : Type} (f : List Nat → Nat × R) (s : TcpSocket) :
    Result R × TcpSocket :=
  s.recv_impl (fun rxBuffer => dequeueManyWith f rxBuffer)

/-- `TcpSocket::recv_wrapping(f)` from `src/tcp.rs`. -/
def recv_wrapping (f : List Nat → Option (List Nat) → Nat) (s : TcpSocket) :
    Result Nat × TcpSocket :=
  s.recv_impl (fun rxBuffer =>
    dequeueManyWithWrapping (fun a b => let len := f a b; (len, len)) rxBuffer)

/-- `TcpSocket::recv_slice(data)` from `src/tcp.rs`; `data` is modelled
by its length, the returned value is the number of bytes dequeued. -/
def recv_slice (dataLen : Nat) (s : TcpSocket) : Result Nat × TcpSocket :=
  s.recv_impl (fun rxBuffer =>
    let r := dequeueSlice dataLen rxBuffer
    ((r.1, r.1), r.2))

/-- `TcpSocket::peek(size)` from `src/tcp.rs`: a non-destructive view of
at most `size` buffered bytes, guarded by `may_recv()`. -/
def peek (size : Nat) (s : TcpSocket) : Result (List Nat) :=
  if !s.may_recv then Except.error Error.Illegal
  else Except.ok (getAllocated size s.rxBuffer)

/-- `TcpSocket::peek_slice(data)` from `src/tcp.rs`: peeks
`data.len()` bytes, copies them into `data` and returns the count. -/
def peek_slice (dataLen : Nat) (s : TcpSocket) : Result Nat :=
  match s.peek dataLen with
  | Except.error e => Except.error e
  | Except.ok buffer => Except.ok buffer.length

end TcpSocket

/-- Connection state of a UDP socket, from `src/udp.rs` (`State`). -/
inductive UdpState where
  | Closed
  | Established
  deriving DecidableEq, Repr

/-- A UDP socket, from `src/udp.rs` (`UdpSocket<L>`).  `check_interval`
and `read_timeout` are kept in milliseconds (`Duration::from_secs(15)`
in the source becomes `15000`). -/
structure UdpSocket where
  handle : SocketHandle
  endpoint : Option SocketAddr
  checkInterval : Nat
  readTimeout : Option Nat
  state : UdpState
  availableData : Nat
  rxBuffer : List Nat
  lastCheckTime : Option Nat
  closedTime : Option Nat
  deriving DecidableEq, Repr

namespace UdpSocket

/-- `UdpSocket::new(socket_id)` from `src/udp.rs`. -/
def new (socketId : Nat) : UdpSocket :=
  { handle := socketId
    checkInterval := 15000
    state := UdpState.Closed
    readTimeout := some 15000
    endpoint := none
    availableData := 0
    rxBuffer := []
    lastCheckTime := none
    closedTime := none }

/-
Unlike `src/tcp.rs`, the time-sensitive `UdpSocket` operations in
`src/udp.rs` take no timestamp parameter: they read the ambient
monotonic clock with `embassy_time::Instant::now()`.  Each internal
clock read is modelled here by an explicit `clockNow` argument, which
stands for the value `Instant::now()` returns at the moment the code
executes — it is not a caller-supplied input of the Rust function.
-/

/-- `UdpSocket::should_update_available_data()` from `src/udp.rs`.  The
source calls `Instant::now()` twice: once as the value stored into
`last_check_time` by `replace`, and once for the elapsed-time
comparison against the previous value; `clockNow1` and `clockNow2`
model those two clock reads in order. -/
def should_update_available_data (clockNow1 clockNow2 : Nat) (s : UdpSocket) :
    Bool × UdpSocket :=
  let prev := s.lastCheckTime
  let s' := { s with lastCheckTime := some clockNow1 }
  match prev with
  | none => (false, s')
  | some last =>
    match checkedDurationSince clockNow2 last with
    | none => (false, s')
    | some dur => (decide (s.checkInterval ≤ dur), s')

/-- `UdpSocket::recycle()` from `src/udp.rs`; `clockNow` models the
internal `Instant::now()` read. -/
def recycle (clockNow : Nat) (s : UdpSocket) : Bool :=
  match s.readTimeout with
  | some readTimeout =>
    match s.closedTime with
    | none => false
    | some closedTime =>
      match checkedDurationSince clockNow closedTime with
      | none => false
      | some dur => decide (readTimeout ≤ dur)
  | none => false

/-- `UdpSocket::closed_by_remote()` from `src/udp.rs`; `clockNow`
models the internal `Instant::now()` read. -/
def closed_by_remote (clockNow : Nat) (s : UdpSocket) : UdpSocket :=
  { s with closedTime := some clockNow }

/-- `UdpSocket::is_open` from `src/udp.rs`. -/
def is_open (s : UdpSocket) : Bool :=
  s.endpoint.isSome

/-- `UdpSocket::bind(endpoint)` from `src/udp.rs`. -/
def bind (endpoint : SocketAddr) (s : UdpSocket) : Result Unit × UdpSocket :=
  if s.is_open then (Except.error Error.Illegal, s)
  else (Except.ok (), { s with endpoint := some endpoint })

end UdpSocket

/-- The socket tagged union, from `src/lib.rs` (`Socket`). -/
inductive Socket where
  | Udp (s : UdpSocket)
  | Tcp (s : TcpSocket)
  deriving DecidableEq, Repr

/-- Socket type tag, from `src/lib.rs` (`SocketType`). -/
inductive SocketType where
  | Udp
  | Tcp
  deriving DecidableEq, Repr

namespace Socket

/-- `Socket::handle` from `src/lib.rs`. -/
def handle : Socket → SocketHandle
  | Socket.Udp s => s.handle
  | Socket.Tcp s => s.handle

/-- `Socket::get_type` from `src/lib.rs`. -/
def get_type : Socket → SocketType
  | Socket.Tcp _ => SocketType.Tcp
  | Socket.Udp _ => SocketType.Udp

/-- `Socket::recycle(ts)` from `src/lib.rs`: dispatch to the stored
variant.  The TCP variant uses the caller-supplied timestamp `ts`; the
UDP variant (src/udp.rs) ignores any caller timestamp and reads the
ambient clock, modelled by `clockNow`. -/
def recycle (clockNow ts : Nat) : Socket → Bool
  | Socket.Tcp s => s.recycle ts
  | Socket.Udp s => s.recycle clockNow

/-- `Socket::closed_by_remote(ts)` from `src/lib.rs`: dispatch, with
`clockNow` modelling the UDP variant's internal clock read. -/
def closed_by_remote (clockNow ts : Nat) : Socket → Socket
  | Socket.Tcp s => Socket.Tcp (s.closed_by_remote ts)
  | Socket.Udp s => Socket.Udp (s.closed_by_remote clockNow)

/-- `Socket::should_update_available_data(ts)` from `src/lib.rs`:
dispatch, with `clockNow1`/`clockNow2` modelling the UDP variant's two
internal clock reads. -/
def should_update_available_data (clockNow1 clockNow2 ts : Nat) :
    Socket → Bool × Socket
  | Socket.Tcp s =>
    let r := s.should_update_available_data ts
    (r.1, Socket.Tcp r.2)
  | Socket.Udp s =>
    let r := s.should_update_available_data clockNow1 clockNow2
    (r.1, Socket.Udp r.2)

end Socket

/-- `AnySocket::downcast` for `TcpSocket`, from `src/lib.rs`. -/
def TcpSocket.downcast (s : Socket) : Result TcpSocket :=
  match s with
  | Socket.Tcp socket => Except.ok socket
  | _ => Except.error Error.Illegal

/-- `AnySocket::downcast` for `UdpSocket`, from `src/lib.rs`. -/
def UdpSocket.downcast (s : Socket) : Result UdpSocket :=
  match s with
  | Socket.Udp socket => Except.ok socket
  | _ => Except.error Error.Illegal

/-- The slot predicate of `Set::index_of` (`src/set.rs`): the closure
`|i| i.as_ref().map(|s| s.handle().0 == handle.0).unwrap_or(false)`,
named so that theorems can speak about it. -/
def slotHandleEq (handle : SocketHandle) (slot : Option Socket) : Bool :=
  match slot with
  | some s => s.handle == handle
  | none => false

/-- The slot predicate of `Set::recycle` (`src/set.rs`): an occupied
slot whose socket's `recycle` predicate holds (`clockNow` models the
ambient clock a UDP socket reads, see `Socket.recycle`). -/
def slotRecycles (clockNow ts : Nat) (slot : Option Socket) : Bool :=
  match slot with
  | some s => s.recycle clockNow ts
  | none => false

/-- The socket arena, from `src/set.rs` (`Set<TIMER_HZ, N, L>`): a
fixed vector of `N` optional slots, modelled as a list. -/
structure SocketSet where
  sockets : List (Option Socket)
  deriving DecidableEq, Repr

namespace SocketSet

/-- `Set::new()` from `src/set.rs`: `N` empty slots. -/
def new (N : Nat) : SocketSet :=
  { sockets := List.replicate N none }

/-- `Set::len()` from `src/set.rs`: the number of occupied slots. -/
def len (set : SocketSet) : Nat :=
  (set.sockets.filter (fun a => a.isSome)).length

/-- `Set::index_of(handle)` from `src/set.rs`: position of the first
slot holding a socket with the given handle. -/
def index_of (handle : SocketHandle) (set : SocketSet) : Result Nat :=
  match set.sockets.findIdx? (slotHandleEq handle) with
  | some idx => Except.ok idx
  | none => Except.error Error.InvalidSocket

/-- `Set::add(socket)` from `src/set.rs`: reject duplicate handles,
then occupy the first empty slot; returns the result together with the
updated set. -/
def add (socket : Socket) (set : SocketSet) : Result SocketHandle × SocketSet :=
  let handle := socket.handle
  if (set.index_of handle).isOk then (Except.error Error.DuplicateSocket, set)
  else
    match set.sockets.findIdx? (fun s => s.isNone) with
    | none => (Except.error Error.SocketSetFull, set)
    | some idx => (Except.ok handle, { set with sockets := set.sockets.set idx (some socket) })

/-- `Set::get::<TcpSocket>(handle)` from `src/set.rs`, with the
downcast of `src/lib.rs`; the returned value is the stored TCP socket
the Rust reference points at. -/
def getTcp (handle : SocketHandle) (set : SocketSet) : Result TcpSocket :=
  match set.index_of handle with
  | Except.error e => Except.error e
  | Except.ok index =>
    match set.sockets.get? index with
    | none => Except.error Error.InvalidSocket
    | some none => Except.error Error.InvalidSocket
    | some (some socket) => TcpSocket.downcast socket

/-- `Set::get::<UdpSocket>(handle)` from `src/set.rs`, with the
downcast of `src/lib.rs`. -/
def getUdp (handle : SocketHandle) (set : SocketSet) : Result UdpSocket :=
  match set.index_of handle with
  | Except.error e => Except.error e
  | Except.ok index =>
    match set.sockets.get? index with
    | none => Except.error Error.InvalidSocket
    | some none => Except.error Error.InvalidSocket
    | some (some socket) => UdpSocket.downcast socket

/-- `Set::remove(handle)` from `src/set.rs`: clear the slot found by
`index_of`; returns the result together with the updated set. -/
def remove (handle : SocketHandle) (set : SocketSet) : Result Unit × SocketSet :=
  match set.index_of handle with
  | Except.error e => (Except.error e, set)
  | Except.ok index =>
    match set.sockets.get? index with
    | none => (Except.error Error.InvalidSocket, set)
    | some none => (Except.error Error.InvalidSocket, set)
    | some (some _) =>
      (Except.ok (), { set with sockets := set.sockets.set index none })

/-- `Set::recycle(ts)` from `src/set.rs`: find the first stored socket
whose `recycle` predicate holds, remove it by handle, and report
whether an eviction happened.  `clockNow` models the ambient clock any
UDP socket in the set would read (see `Socket.recycle`). -/
def recycle (clockNow ts : Nat) (set : SocketSet) : Bool × SocketSet :=
  match set.sockets.find? (slotRecycles clockNow ts) with
  | none => (false, set)
  | some none => (false, set)
  | some (some s) =>
    let r := set.remove s.handle
    (r.1.isOk, r.2)

end SocketSet

section IndexMap

variable {V : Type}

/-
`heapless::FnvIndexMap<K, V, N>` is modelled by an association list with
at most `N` entries and pairwise-distinct keys; keys are `Nat` (socket
handles / ports).  `remove` in heapless is a swap-remove, which changes
entry order but not key-based lookup; since lookup is the only
observation the verified code makes, removal is modelled by `filter`.
-/

/-- Lookup in a `FnvIndexMap` modelled as an association list
(`FnvIndexMap::get`): the value of the entry with the given key. -/
def mapLookup (k : Nat) : List (Nat × V) → Option V
  | [] => none
  | e :: m => if e.1 = k then some e.2 else mapLookup k m

/-- `FnvIndexMap::contains_key`. -/
def mapContains (k : Nat) (m : List (Nat × V)) : Bool :=
  (mapLookup k m).isSome

/-- Replace the value stored under key `p`, keeping every key in place
(the in-place update performed by `FnvIndexMap::insert` on an existing
key, and by mutation through `get_mut`). -/
def replaceVal (p : Nat) (w : V) : List (Nat × V) → List (Nat × V)
  | [] => []
  | e :: m => (if e.1 = p then (e.1, w) else e) :: replaceVal p w m

/-- `FnvIndexMap::insert` with capacity `N`: replaces in place when the
key is present, appends when there is room, and fails (`none`, leaving
the map unchanged) when the map is full and the key is new. -/
def mapInsert (N : Nat) (k : Nat) (v : V) (m : List (Nat × V)) :
    Option (List (Nat × V)) :=
  if mapContains k m then some (replaceVal k v m)
  else if m.length < N then some (m ++ [(k, v)])
  else none

/-- `FnvIndexMap::remove`: drops the entry with key `k`, if any (a
swap-remove in heapless; with pairwise-distinct keys the entry order
does not influence any lookup, so removal is modelled positionally). -/
def mapRemove (k : Nat) : List (Nat × V) → List (Nat × V)
  | [] => []
  | e :: m => if e.1 = k then mapRemove k m else e :: mapRemove k m

end IndexMap

section Queue

variable {A : Type}

/-- `heapless::spsc::Queue<T, L>` holds at most `L - 1` elements;
enqueue fails (returning `none`) on a full queue. -/
def queueEnqueue (L : Nat) (x : A) (q : List A) : Option (List A) :=
  if q.length + 1 < L then some (q ++ [x]) else none

/-- `Queue::dequeue`: pop the front element, if any. -/
def queueDequeue (q : List A) : Option (A × List A) :=
  match q with
  | [] => none
  | x :: rest => some (x, rest)

end Queue

/-- A pending inbound connection: the new socket's handle together with
the remote address. -/
abbrev Pending := SocketHandle × SocketAddr

/-- The listener state shared by `TcpListener<N, L>`
(src/tcp_listener.rs) and `UdpListener<N, L>` (src/udp_listener.rs):
both files declare exactly this pair of maps — server-socket handles to
ports, and ports to the bounded queue of pending connections. -/
structure Listener where
  handles : List (Nat × Nat)
  connections : List (Nat × List Pending)
  deriving DecidableEq, Repr

namespace TcpListener

/-- `TcpListener::new()` from `src/tcp_listener.rs`. -/
def new : Listener := { handles := [], connections := [] }

/-- `TcpListener::bind(handle, port)` from `src/tcp_listener.rs`.  Its
error type is `()`; on a failed second insertion the already-updated
`handles` map is kept (there is no rollback in the source). -/
def bind (N : Nat) (handle port : Nat) (l : Listener) :
    Except Unit Unit × Listener :=
  if mapContains handle l.handles then (Except.error (), l)
  else
    match mapInsert N handle port l.handles with
    | none => (Except.error (), l)
    | some handles' =>
      match mapInsert N port [] l.connections with
      | none => (Except.error (), { l with handles := handles' })
      | some conn' => (Except.ok (), { handles := handles', connections := conn' })

/-- `TcpListener::incoming(port)` from `src/tcp_listener.rs`. -/
def incoming (port : Nat) (l : Listener) : Option (List Pending) :=
  mapLookup port l.connections

/-- The external driver pushing a pending connection into the queue
returned by `TcpListener::incoming(port)`: a full queue or an unbound
port leaves the state unchanged (the push simply fails). -/
def pushIncoming (L : Nat) (port : Nat) (x : Pending) (l : Listener) : Listener :=
  match mapLookup port l.connections with
  | none => l
  | some q =>
    match queueEnqueue L x q with
    | none => l
    | some q' => { l with connections := replaceVal port q' l.connections }

/-- `TcpListener::available(handle)` from `src/tcp_listener.rs`. -/
def available (handle : Nat) (l : Listener) : Except Unit Bool :=
  match mapLookup handle l.handles with
  | none => Except.error ()
  | some port =>
    match mapLookup port l.connections with
    | none => Except.error ()
    | some q => Except.ok (!q.isEmpty)

/-- `TcpListener::accept(handle)` from `src/tcp_listener.rs`: dequeue
the first pending connection of the handle's bound port. -/
def accept (handle : Nat) (l : Listener) :
    Except Unit Pending × Listener :=
  match mapLookup handle l.handles with
  | none => (Except.error (), l)
  | some port =>
    match mapLookup port l.connections with
    | none => (Except.error (), l)
    | some q =>
      match queueDequeue q with
      | none => (Except.error (), l)
      | some (x, q') =>
        (Except.ok x, { l with connections := replaceVal port q' l.connections })

end TcpListener

namespace UdpListener

/-- `UdpListener::new()` from `src/udp_listener.rs`. -/
def new : Listener := { handles := [], connections := [] }

/-- `UdpListener::bind(handle, port)` from `src/udp_listener.rs`;
identical to the TCP variant except for the `Error::ListenerError`
error payload. -/
def bind (N : Nat) (handle port : Nat) (l : Listener) :
    Result Unit × Listener :=
  if mapContains handle l.handles then (Except.error Error.ListenerError, l)
  else
    match mapInsert N handle port l.handles with
    | none => (Except.error Error.ListenerError, l)
    | some handles' =>
      match mapInsert N port [] l.connections with
      | none => (Except.error Error.ListenerError, { l with handles := handles' })
      | some conn' => (Except.ok (), { handles := handles', connections := conn' })

/-- `UdpListener::unbind(handle)` from `src/udp_listener.rs`: removes
the handle's map entry and the queue of the port it was bound to. -/
def unbind (handle : Nat) (l : Listener) : Result Unit × Listener :=
  match mapLookup handle l.handles with
  | some port =>
    (Except.ok (),
      { handles := mapRemove handle l.handles
        connections := mapRemove port l.connections })
  | none => (Except.error Error.ListenerError, l)

/-- `UdpListener::incoming(port)` from `src/udp_listener.rs`. -/
def incoming (port : Nat) (l : Listener) : Option (List Pending) :=
  mapLookup port l.connections

/-- The external driver pushing a pending connection into the queue
returned by `UdpListener::incoming(port)` (as for the TCP variant). -/
def pushIncoming (L : Nat) (port : Nat) (x : Pending) (l : Listener) : Listener :=
  match mapLookup port l.connections with
  | none => l
  | some q =>
    match queueEnqueue L x q with
    | none => l
    | some q' => { l with connections := replaceVal port q' l.connections }

/-- `UdpListener::available(handle)` from `src/udp_listener.rs`. -/
def available (handle : Nat) (l : Listener) : Result Bool :=
  match mapLookup handle l.handles with
  | none => Except.error Error.ListenerError
  | some port =>
    match mapLookup port l.connections with
    | none => Except.error Error.ListenerError
    | some q => Except.ok (!q.isEmpty)

/-- `UdpListener::get_remote(handle)` from `src/udp_listener.rs`:
dequeue the first pending connection of the handle's bound port. -/
def get_remote (handle : Nat) (l : Listener) :
    Result Pending × Listener :=
  match mapLookup handle l.handles with
  | none => (Except.error Error.ListenerError, l)
  | some port =>
    match mapLookup port l.connections with
    | none => (Except.error Error.ListenerError, l)
    | some q =>
      match queueDequeue q with
      | none => (Except.error Error.ListenerError, l)
      | some (x, q') =>
        (Except.ok x, { l with connections := replaceVal port q' l.connections })

end UdpListener

/-- Operations a caller can perform on a `TcpListener` that may change
its state: bind, a driver push through `incoming`, and accept. -/
inductive TcpOp where
  | bindOp (handle port : Nat)
  | pushOp (port : Nat) (x : Pending)
  | acceptOp (handle : Nat)
  deriving DecidableEq, Repr

/-- One `TcpListener` operation, by its state effect. -/
def TcpListener.step (N L : Nat) (l : Listener) : TcpOp → Listener
  | TcpOp.bindOp h p => (TcpListener.bind N h p l).2
  | TcpOp.pushOp p x => TcpListener.pushIncoming L p x l
  | TcpOp.acceptOp h => (TcpListener.accept h l).2

/-- Run a sequence of `TcpListener` operations. -/
def TcpListener.run (N L : Nat) (l : Listener) : List TcpOp → Listener
  | [] => l
  | op :: ops => TcpListener.run N L (TcpListener.step N L l op) ops

/-- Operations a caller can perform on a `UdpListener` that may change
its state: bind, unbind, a driver push through `incoming`, and
`get_remote`. -/
inductive UdpOp where
  | bindOp (handle port : Nat)
  | unbindOp (handle : Nat)
  | pushOp (port : Nat) (x : Pending)
  | getRemoteOp (handle : Nat)
  deriving DecidableEq, Repr

/-- One `UdpListener` operation, by its state effect. -/
def UdpListener.step (N L : Nat) (l : Listener) : UdpOp → Listener
  | UdpOp.bindOp h p => (UdpListener.bind N h p l).2
  | UdpOp.unbindOp h => (UdpListener.unbind h l).2
  | UdpOp.pushOp p x => UdpListener.pushIncoming L p x l
  | UdpOp.getRemoteOp h => (UdpListener.get_remote h l).2

/-- Run a sequence of `UdpListener` operations. -/
def UdpListener.run (N L : Nat) (l : Listener) : List UdpOp → Listener
  | [] => l
  | op :: ops => UdpListener.run N L (UdpListener.step N L l op) ops

/-- Check that an operation, applied to listener state `l`, does not
bind a port that already has a pending-connection queue. -/
def UdpListener.bindFresh (l : Listener) : UdpOp → Bool
  | UdpOp.bindOp _ p => !mapContains p l.connections
  | _ => true

/-- A `UdpListener` operation sequence in which `bind` is only ever
invoked for a port that has no pending-connection queue at that moment
(no two live handles ever share a port). -/
def UdpListener.goodRun (N L : Nat) (l : Listener) : List UdpOp → Bool
  | [] => true
  | op :: ops =>
    UdpListener.bindFresh l op &&
    UdpListener.goodRun N L (UdpListener.step N L l op) ops

/-- The listener invariant stated by the spec: a port has a
pending-connection queue exactly when some handle is bound to it. -/
def ListenerInv (l : Listener) : Prop :=
  ∀ p : Nat, (mapContains p l.connections = true) ↔
    (∃ h : Nat, mapLookup h l.handles = some p)

/-- Well-formedness of the listener maps: keys are pairwise distinct,
as `heapless::FnvIndexMap` guarantees by construction. -/
def ListenerWf (l : Listener) : Prop :=
  (l.handles.map Prod.fst).Nodup ∧ (l.connections.map Prod.fst).Nodup

/-- No two bound handles share a port (the bound ports are pairwise
distinct). -/
def ListenerInj (l : Listener) : Prop :=
  (l.handles.map Prod.snd).Nodup

/-- The handles of the occupied slots of a socket set, in slot order. -/
def SocketSet.handleList (set : SocketSet) : List SocketHandle :=
  set.sockets.filterMap (fun slot => Option.map Socket.handle slot)

/-- Handle uniqueness: the invariant `Set::add` maintains (`src/set.rs`
rejects duplicate handles on insertion). -/
def SocketSet.HandlesNodup (set : SocketSet) : Prop :=
  set.handleList.Nodup

/-
Theorems.
-/

theorem list_findIdx_first {α : Type} (p : α → Bool) (l : List α) (j : Nat)
    (x : α) (hj : l.get? j = some x) (hx : p x = true)
    (hfirst : ∀ i y, i < j → l.get? i = some y → p y = false) :
    l.findIdx? p = some j := by
  induction l generalizing j with
  | nil => simp at hj
  | cons a t ih =>
    cases j with
    | zero =>
      have ha : a = x := by simpa using hj
      simp [List.findIdx?_cons, ha, hx]
    | succ k =>
      have h0 : p a = false := hfirst 0 a (Nat.succ_pos k) rfl
      have htail : t.findIdx? p = some k := by
        refine ih k (by simpa using hj) ?_
        intro i y hik hiy
        exact hfirst (i + 1) y (by omega) (by simpa using hiy)
      simp [List.findIdx?_cons, h0, List.findIdx?_succ, htail]

theorem list_find_first {α : Type} (p : α → Bool) (l : List α) (j : Nat)
    (x : α) (hj : l.get? j = some x) (hx : p x = true)
    (hfirst : ∀ i y, i < j → l.get? i = some y → p y = false) :
    l.find? p = some x := by
  induction l generalizing j with
  | nil => simp at hj
  | cons a t ih =>
    cases j with
    | zero =>
      have ha : a = x := by simpa using hj
      subst ha
      exact List.find?_cons_of_pos _ hx
    | succ k =>
      have h0 : p a = false := hfirst 0 a (Nat.succ_pos k) rfl
      rw [List.find?_cons_of_neg _ (by simp [h0])]
      refine ih k (by simpa using hj) ?_
      intro i y hik hiy
      exact hfirst (i + 1) y (by omega) (by simpa using hiy)

theorem socket_handles_nodup_ne (l : List (Option Socket))
    (hn : (l.filterMap (fun slot => Option.map Socket.handle slot)).Nodup) :
    ∀ i j si sj, i < j → l.get? i = some (some si) → l.get? j = some (some sj) →
      si.handle ≠ sj.handle := by
  induction l with
  | nil => intro i j si sj _ hi; simp at hi
  | cons a t ih =>
    intro i j si sj hij hi hj
    cases i with
    | zero =>
      have ha : a = some si := by simpa using hi
      subst ha
      simp only [List.filterMap_cons, Option.map_some] at hn
      have hnotin := (List.nodup_cons.mp hn).1
      cases j with
      | zero => omega
      | succ k =>
        have hjt : t.get? k = some (some sj) := by simpa using hj
        have hmem : (some sj) ∈ t := List.get?_mem hjt
        have : sj.handle ∈ t.filterMap (fun slot => Option.map Socket.handle slot) :=
          List.mem_filterMap.mpr ⟨some sj, hmem, rfl⟩
        intro heq
        rw [heq] at hnotin
        exact hnotin this
    | succ i2 =>
      cases j with
      | zero => omega
      | succ k =>
        have hnt : (t.filterMap (fun slot => Option.map Socket.handle slot)).Nodup := by
          cases a with
          | none => simpa using hn
          | some s0 =>
            simp only [List.filterMap_cons, Option.map_some] at hn
            exact (List.nodup_cons.mp hn).2
        exact ih hnt i2 k si sj (by omega) (by simpa using hi) (by simpa using hj)

/-- C7: the spec requires every time-sensitive operation to take the
current time as an explicit caller-supplied parameter, for both socket
variants.  `src/tcp.rs` does so, but the `UdpSocket` operations in
`src/udp.rs` take no timestamp argument and read the ambient monotonic
clock (`Instant::now()`) internally: on identical socket states their
results differ with the real execution time, modelled here by the
`clockNow` argument standing for the internal clock read. -/
theorem udp_time_ops_read_internal_clock :
    (UdpSocket.recycle 15000 ({ UdpSocket.new 0 with closedTime := some 0 }) = true ∧
      UdpSocket.recycle 14999 ({ UdpSocket.new 0 with closedTime := some 0 }) = false) ∧
    (UdpSocket.closed_by_remote 1 (UdpSocket.new 0) ≠
      UdpSocket.closed_by_remote 2 (UdpSocket.new 0)) ∧
    ((UdpSocket.should_update_available_data 20000 20000
        ({ UdpSocket.new 0 with lastCheckTime := some 0 })).1 = true ∧
      (UdpSocket.should_update_available_data 20000 10
        ({ UdpSocket.new 0 with lastCheckTime := some 0 })).1 = false) := by
  refine ⟨⟨?_, ?_⟩, ?_, ⟨?_, ?_⟩⟩ <;> decide

theorem socketset_index_of_none (set : SocketSet) (h : SocketHandle)
    (hno : ∀ i s2, set.sockets.get? i = some (some s2) → s2.handle ≠ h) :
    set.index_of h = Except.error Error.InvalidSocket := by
  have hfi : set.sockets.findIdx? (slotHandleEq h) = none := by
    rw [List.findIdx?_eq_none_iff]
    intro x hx
    cases x with
    | none => rfl
    | some s2 =>
      rcases List.mem_iff_get?.mp hx with ⟨n, hn⟩
      simp [slotHandleEq, hno n s2 hn]
  simp [SocketSet.index_of, hfi]

theorem socketset_index_of_first (set : SocketSet) (h : SocketHandle) (j : Nat)
    (s2 : Socket) (hj : set.sockets.get? j = some (some s2)) (hh : s2.handle = h)
    (hfirst : ∀ i s3, i < j → set.sockets.get? i = some (some s3) → s3.handle ≠ h) :
    set.index_of h = Except.ok j := by
  have hfi : set.sockets.findIdx? (slotHandleEq h) = some j := by
    apply list_findIdx_first _ _ j (some s2) hj (by simp [slotHandleEq, hh])
    intro i y hik hiy
    cases y with
    | none => rfl
    | some s3 => simp [slotHandleEq, hfirst i s3 hik hiy]
  simp [SocketSet.index_of, hfi]

/-- C1: `Set::add` fails with `DuplicateSocket` (leaving the set
unchanged) when some occupied slot already holds the new socket's
handle; otherwise it fails with `SocketSetFull` when no empty slot
remains; otherwise it stores the socket in the first empty slot and
returns its handle. -/
theorem socket_set_add_spec (set : SocketSet) (socket : Socket) :
    ((∃ i s2, set.sockets.get? i = some (some s2) ∧ s2.handle = socket.handle) →
      set.add socket = (Except.error Error.DuplicateSocket, set)) ∧
    ((∀ i s2, set.sockets.get? i = some (some s2) → s2.handle ≠ socket.handle) →
      (∀ i, set.sockets.get? i ≠ some none) →
      set.add socket = (Except.error Error.SocketSetFull, set)) ∧
    (∀ j, (∀ i s2, set.sockets.get? i = some (some s2) → s2.handle ≠ socket.handle) →
      set.sockets.get? j = some none →
      (∀ i, i < j → set.sockets.get? i ≠ some none) →
      set.add socket =
        (Except.ok socket.handle, { sockets := set.sockets.set j (some socket) })) := by
  refine ⟨?_, ?_, ?_⟩
  · rintro ⟨i, s2, hi, hh⟩
    have hissome : (set.sockets.findIdx? (slotHandleEq socket.handle)).isSome = true := by
      rw [List.findIdx?_isSome, List.any_eq_true]
      exact ⟨some s2, List.get?_mem hi, by simp [slotHandleEq, hh]⟩
    rcases Option.isSome_iff_exists.mp hissome with ⟨idx, hidx⟩
    have hok : set.index_of socket.handle = Except.ok idx := by
      simp [SocketSet.index_of, hidx]
    simp [SocketSet.add, hok, Except.isOk, Except.toBool]
  · intro hno hfull
    have hio := socketset_index_of_none set socket.handle hno
    have hisok : (set.index_of socket.handle).isOk = false := by
      rw [hio]; rfl
    have hfi : set.sockets.findIdx? (fun s => s.isNone) = none := by
      rw [List.findIdx?_eq_none_iff]
      intro x hx
      cases x with
      | some s => rfl
      | none =>
        rcases List.mem_iff_get?.mp hx with ⟨n, hn⟩
        exact absurd hn (hfull n)
    simp [SocketSet.add, hisok, hfi]
  · intro j hno hj hfirst
    have hio := socketset_index_of_none set socket.handle hno
    have hisok : (set.index_of socket.handle).isOk = false := by
      rw [hio]; rfl
    have hfi : set.sockets.findIdx? (fun s => s.isNone) = some j := by
      apply list_findIdx_first _ _ j none hj (by rfl)
      intro i y hik hiy
      cases y with
      | some s => rfl
      | none => exact absurd hiy (hfirst i hik)
    simp [SocketSet.add, hisok, hfi]

/-- Witness for C1: adding a TCP socket to a fresh one-slot set stores
it in the first (empty) slot and returns its handle. -/
theorem socket_set_add_spec_witness :
    (SocketSet.new 1).add (Socket.Tcp (TcpSocket.new 0)) =
      (Except.ok (Socket.Tcp (TcpSocket.new 0)).handle,
        { sockets := (SocketSet.new 1).sockets.set 0 (some (Socket.Tcp (TcpSocket.new 0))) }) := by
  apply (socket_set_add_spec (SocketSet.new 1) (Socket.Tcp (TcpSocket.new 0))).2.2 0
  · intro i s2 hi
    rcases i with _ | i2 <;> simp [SocketSet.new, List.replicate] at hi
  · rfl
  · intro i hi
    omega

/-- C2: `Set::get::<T>(handle)` fails with `InvalidSocket` when no
occupied slot holds the handle; when the first slot with the handle
holds the other protocol's socket it fails with `Illegal`; and only a
matching variant is ever returned, namely the stored socket itself. -/
theorem socket_set_get_downcast_spec (set : SocketSet) (h : SocketHandle) :
    ((∀ i s2, set.sockets.get? i = some (some s2) → s2.handle ≠ h) →
      set.getTcp h = Except.error Error.InvalidSocket ∧
      set.getUdp h = Except.error Error.InvalidSocket) ∧
    (∀ j u, set.sockets.get? j = some (some (Socket.Udp u)) →
      (Socket.Udp u).handle = h →
      (∀ i s3, i < j → set.sockets.get? i = some (some s3) → s3.handle ≠ h) →
      set.getTcp h = Except.error Error.Illegal ∧ set.getUdp h = Except.ok u) ∧
    (∀ j t, set.sockets.get? j = some (some (Socket.Tcp t)) →
      (Socket.Tcp t).handle = h →
      (∀ i s3, i < j → set.sockets.get? i = some (some s3) → s3.handle ≠ h) →
      set.getUdp h = Except.error Error.Illegal ∧ set.getTcp h = Except.ok t) := by
  refine ⟨?_, ?_, ?_⟩
  · intro hno
    have hio := socketset_index_of_none set h hno
    exact ⟨by simp [SocketSet.getTcp, hio], by simp [SocketSet.getUdp, hio]⟩
  · intro j u hj hh hfirst
    have hio := socketset_index_of_first set h j (Socket.Udp u) hj hh hfirst
    have hjg : set.sockets[j]? = some (some (Socket.Udp u)) := by simpa using hj
    exact ⟨by simp [SocketSet.getTcp, hio, hjg, TcpSocket.downcast],
      by simp [SocketSet.getUdp, hio, hjg, UdpSocket.downcast]⟩
  · intro j t hj hh hfirst
    have hio := socketset_index_of_first set h j (Socket.Tcp t) hj hh hfirst
    have hjg : set.sockets[j]? = some (some (Socket.Tcp t)) := by simpa using hj
    exact ⟨by simp [SocketSet.getUdp, hio, hjg, UdpSocket.downcast],
      by simp [SocketSet.getTcp, hio, hjg, TcpSocket.downcast]⟩

/-- Witness for C2: on a set holding one UDP socket with handle 5,
`get::<TcpSocket>(5)` fails with `Illegal` while `get::<UdpSocket>(5)`
returns the stored socket. -/
theorem socket_set_get_downcast_spec_witness :
    ({ sockets := [some (Socket.Udp (UdpSocket.new 5))] } : SocketSet).getTcp 5 =
      Except.error Error.Illegal ∧
    ({ sockets := [some (Socket.Udp (UdpSocket.new 5))] } : SocketSet).getUdp 5 =
      Except.ok (UdpSocket.new 5) := by
  apply (socket_set_get_downcast_spec
    ({ sockets := [some (Socket.Udp (UdpSocket.new 5))] }) 5).2.1 0 (UdpSocket.new 5)
  · rfl
  · rfl
  · intro i s3 hi
    omega

/-- C5: `Set::recycle(now)` removes exactly the first stored socket (in
slot order) whose per-socket `recycle` predicate holds and returns
true; if no stored socket's predicate holds it returns false and
leaves the set unchanged (handle uniqueness of the stored sockets is
assumed, as `add` enforces it). -/
theorem socket_set_recycle_spec (clockNow ts : Nat) (set : SocketSet)
    (hnodup : set.HandlesNodup) :
    ((∀ i s2, set.sockets.get? i = some (some s2) →
        s2.recycle clockNow ts = false) →
      set.recycle clockNow ts = (false, set)) ∧
    (∀ j s2, set.sockets.get? j = some (some s2) →
      s2.recycle clockNow ts = true →
      (∀ i s3, i < j → set.sockets.get? i = some (some s3) →
        s3.recycle clockNow ts = false) →
      set.recycle clockNow ts = (true, { sockets := set.sockets.set j none })) := by
  constructor
  · intro hno
    have hfind : set.sockets.find? (slotRecycles clockNow ts) = none := by
      rw [List.find?_eq_none]
      intro x hx
      cases x with
      | none => simp [slotRecycles]
      | some s2 =>
        rcases List.mem_iff_get?.mp hx with ⟨n, hn⟩
        simp [slotRecycles, hno n s2 hn]
    simp [SocketSet.recycle, hfind]
  · intro j s2 hj hrec hfirst
    have hfind : set.sockets.find? (slotRecycles clockNow ts) = some (some s2) := by
      apply list_find_first _ _ j (some s2) hj (by simp [slotRecycles, hrec])
      intro i y hik hiy
      cases y with
      | none => simp [slotRecycles]
      | some s3 => simp [slotRecycles, hfirst i s3 hik hiy]
    have hio : set.index_of s2.handle = Except.ok j := by
      apply socketset_index_of_first set s2.handle j s2 hj rfl
      intro i s3 hij hi heq
      exact socket_handles_nodup_ne set.sockets hnodup i j s3 s2 hij hi hj heq
    have hjg : set.sockets[j]? = some (some s2) := by simpa using hj
    have hrem : set.remove s2.handle =
        (Except.ok (), { sockets := set.sockets.set j none }) := by
      simp [SocketSet.remove, hio, hjg]
    simp [SocketSet.recycle, hfind, hrem, Except.isOk, Except.toBool]

/-- Witness for C5: a two-slot set whose second socket is stale evicts
exactly that socket and reports an eviction. -/
theorem socket_set_recycle_spec_witness :
    ({ sockets := [some (Socket.Tcp (TcpSocket.new 0)),
        some (Socket.Tcp ({ TcpSocket.new 1 with state := TcpState.ShutdownForWrite 0 }))] } : SocketSet).recycle 0 20000 =
      (true, { sockets := [some (Socket.Tcp (TcpSocket.new 0)), none] }) := by
  have h := (socket_set_recycle_spec 0 20000
    ({ sockets := [some (Socket.Tcp (TcpSocket.new 0)),
        some (Socket.Tcp ({ TcpSocket.new 1 with state := TcpState.ShutdownForWrite 0 }))] })
    (by unfold SocketSet.HandlesNodup; decide)).2 1
    (Socket.Tcp ({ TcpSocket.new 1 with state := TcpState.ShutdownForWrite 0 }))
    rfl (by decide) ?_
  · exact h
  · intro i s3 hij hi
    interval_cases i
    have hs3 : Socket.Tcp (TcpSocket.new 0) = s3 := by simpa using hi
    rw [← hs3]
    decide

/-- C3: each receive-path operation of `TcpSocket` fails with `Illegal`
exactly when `may_recv()` is false; `may_recv()` holds exactly when the
state is `Connected` or `ShutdownForWrite` or the receive buffer is
non-empty; and under `may_recv()` each operation delegates to the
corresponding buffer dequeue/peek primitive. -/
theorem tcp_recv_illegal_iff_not_may_recv (s : TcpSocket) :
    (s.may_recv = true ↔
      ((∃ a, s.state = TcpState.Connected a) ∨
        (∃ c, s.state = TcpState.ShutdownForWrite c) ∨ s.rxBuffer ≠ [])) ∧
    (∀ {R : Type} (f : List Nat → Nat × R),
      ((s.recv f).1 = Except.error Error.Illegal ↔ s.may_recv = false) ∧
      (s.may_recv = true →
        s.recv f = (Except.ok (dequeueManyWith f s.rxBuffer).1.2,
          { s with rxBuffer := (dequeueManyWith f s.rxBuffer).2 }))) ∧
    (∀ (f : List Nat → Option (List Nat) → Nat),
      ((s.recv_wrapping f).1 = Except.error Error.Illegal ↔ s.may_recv = false) ∧
      (s.may_recv = true →
        (s.recv_wrapping f).1 = Except.ok (f s.rxBuffer none))) ∧
    (∀ dataLen : Nat,
      ((s.recv_slice dataLen).1 = Except.error Error.Illegal ↔ s.may_recv = false) ∧
      (s.may_recv = true →
        s.recv_slice dataLen = (Except.ok (dequeueSlice dataLen s.rxBuffer).1,
          { s with rxBuffer := (dequeueSlice dataLen s.rxBuffer).2 }))) ∧
    (∀ size : Nat,
      (s.peek size = Except.error Error.Illegal ↔ s.may_recv = false) ∧
      (s.may_recv = true → s.peek size = Except.ok (getAllocated size s.rxBuffer))) ∧
    (∀ dataLen : Nat,
      (s.peek_slice dataLen = Except.error Error.Illegal ↔ s.may_recv = false) ∧
      (s.may_recv = true →
        s.peek_slice dataLen = Except.ok (getAllocated dataLen s.rxBuffer).length)) := by
  have hchar : s.may_recv = true ↔
      ((∃ a, s.state = TcpState.Connected a) ∨
        (∃ c, s.state = TcpState.ShutdownForWrite c) ∨ s.rxBuffer ≠ []) := by
    cases hst : s.state <;>
      simp [TcpSocket.may_recv, hst, List.isEmpty_iff]
  refine ⟨hchar, ?_, ?_, ?_, ?_, ?_⟩
  · intro R f
    cases hm : s.may_recv <;>
      simp [TcpSocket.recv, TcpSocket.recv_impl, hm]
  · intro f
    cases hm : s.may_recv <;>
      simp [TcpSocket.recv_wrapping, TcpSocket.recv_impl, hm, dequeueManyWithWrapping]
  · intro dataLen
    cases hm : s.may_recv <;>
      simp [TcpSocket.recv_slice, TcpSocket.recv_impl, hm, dequeueSlice]
  · intro size
    cases hm : s.may_recv <;> simp [TcpSocket.peek, hm]
  · intro dataLen
    cases hm : s.may_recv <;>
      simp [TcpSocket.peek_slice, TcpSocket.peek, hm, getAllocated]

/-- Witness for C3: a freshly created socket with one buffered byte may
receive, and `recv_slice` then dequeues it. -/
theorem tcp_recv_illegal_iff_not_may_recv_witness :
    ({ TcpSocket.new 0 with rxBuffer := [7] } : TcpSocket).recv_slice 1 =
      (Except.ok 1, TcpSocket.new 0) := by
  have h :=
    ((tcp_recv_illegal_iff_not_may_recv
      ({ TcpSocket.new 0 with rxBuffer := [7] })).2.2.2.1 1).2 (by decide)
  rw [h]
  decide

/-- C4: a TCP socket in `ShutdownForWrite(t0)` with a configured
`read_timeout` of `T` milliseconds recycles exactly at the timestamps
that are at least `t0 + T`; in any other state, or with no configured
timeout, it never recycles. -/
theorem tcp_recycle_timeout_spec (s : TcpSocket) (t0 T t : Nat) :
    (s.state = TcpState.ShutdownForWrite t0 → s.readTimeout = some T →
      (s.recycle t = true ↔ t0 + T ≤ t)) ∧
    ((∀ c : Nat, s.state ≠ TcpState.ShutdownForWrite c) → s.recycle t = false) ∧
    (s.readTimeout = none → s.recycle t = false) ∧
    (s.state = TcpState.ShutdownForWrite t0 → s.readTimeout = some T → 1 ≤ T →
      s.recycle (t0 + T - 1) = false ∧ s.recycle (t0 + T) = true) := by
  have key : s.state = TcpState.ShutdownForWrite t0 → s.readTimeout = some T →
      ∀ u : Nat, (s.recycle u = true ↔ t0 + T ≤ u) := by
    intro hs hr u
    simp only [TcpSocket.recycle, hs, hr, checkedDurationSince]
    split_ifs with h
    · simp only [decide_eq_true_eq]
      omega
    · simp only [Bool.false_eq_true, false_iff]
      omega
  refine ⟨fun hs hr => key hs hr t, ?_, ?_, ?_⟩
  · intro hne
    cases hr : s.readTimeout <;> cases hst : s.state <;>
      simp_all [TcpSocket.recycle]
  · intro hr
    simp [TcpSocket.recycle, hr]
  · intro hs hr hT
    constructor
    · cases hrec : s.recycle (t0 + T - 1)
      · rfl
      · exfalso
        have := (key hs hr (t0 + T - 1)).mp hrec
        omega
    · exact (key hs hr (t0 + T)).mpr (by omega)

/-- Witness for C4: a socket closed by the remote at `t0 = 100` with the
default 15000 ms timeout is not recycled one millisecond early and is
recycled exactly on time. -/
theorem tcp_recycle_timeout_spec_witness :
    ({ TcpSocket.new 0 with state := TcpState.ShutdownForWrite 100 } : TcpSocket).recycle 15099 = false ∧
    ({ TcpSocket.new 0 with state := TcpState.ShutdownForWrite 100 } : TcpSocket).recycle 15100 = true := by
  have h := tcp_recycle_timeout_spec
    ({ TcpSocket.new 0 with state := TcpState.ShutdownForWrite 100 }) 100 15000 0
  exact (h.2.2.2 rfl rfl (by omega))

/-- C6: `TcpSocket::should_update_available_data(now)` is false outside
`Connected`; when connected it is true exactly when no previous check
exists, the elapsed-time computation fails (`now` before the recorded
check), or the elapsed time reached `check_interval`; it records `now`
as the new `last_check_time` exactly on a true answer, so an immediate
re-invocation within the same interval answers false. -/
theorem tcp_should_update_available_data_spec (s : TcpSocket) (ts : Nat) :
    (s.is_connected = false → s.should_update_available_data ts = (false, s)) ∧
    (s.is_connected = true →
      ((s.should_update_available_data ts).1 = true ↔
        (s.lastCheckTime = none ∨
          ∃ last, s.lastCheckTime = some last ∧
            (ts < last ∨ s.checkInterval ≤ ts - last)))) ∧
    ((s.should_update_available_data ts).1 = true →
      (s.should_update_available_data ts).2 = { s with lastCheckTime := some ts }) ∧
    ((s.should_update_available_data ts).1 = false →
      (s.should_update_available_data ts).2 = s) ∧
    (∀ ts2 : Nat, s.is_connected = true →
      (s.should_update_available_data ts).1 = true →
      ts ≤ ts2 → ts2 - ts < s.checkInterval →
      (((s.should_update_available_data ts).2).should_update_available_data ts2).1
        = false) := by
  by_cases hc : s.is_connected = true
  case neg =>
    have hcf : s.is_connected = false := by
      revert hc; cases s.is_connected <;> simp
    have hrun : s.should_update_available_data ts = (false, s) := by
      simp [TcpSocket.should_update_available_data, hcf]
    refine ⟨fun _ => hrun, fun hct => absurd hct (by simp [hcf]), ?_, ?_, ?_⟩
    · intro h1; rw [hrun] at h1; simp at h1
    · intro _; rw [hrun]
    · intro ts2 hct; exact absurd hct (by simp [hcf])
  case pos =>
    have h_none : s.lastCheckTime = none →
        s.should_update_available_data ts = (true, { s with lastCheckTime := some ts }) := by
      intro hlast
      simp [TcpSocket.should_update_available_data, hc, hlast]
    have h_early : ∀ last, s.lastCheckTime = some last → ¬ last ≤ ts →
        s.should_update_available_data ts = (true, { s with lastCheckTime := some ts }) := by
      intro last hlast hlt
      simp [TcpSocket.should_update_available_data, hc, hlast, checkedDurationSince, hlt]
    have h_due : ∀ last, s.lastCheckTime = some last → last ≤ ts →
        s.checkInterval ≤ ts - last →
        s.should_update_available_data ts = (true, { s with lastCheckTime := some ts }) := by
      intro last hlast hle hge
      simp [TcpSocket.should_update_available_data, hc, hlast, checkedDurationSince, hle, hge]
    have h_not : ∀ last, s.lastCheckTime = some last → last ≤ ts →
        ¬ s.checkInterval ≤ ts - last →
        s.should_update_available_data ts = (false, s) := by
      intro last hlast hle hge
      simp [TcpSocket.should_update_available_data, hc, hlast, checkedDurationSince, hle, hge]
    refine ⟨fun hcf => absurd hcf (by simp [hc]), fun _ => ?_, ?_, ?_, ?_⟩
    · rcases hlast : s.lastCheckTime with _ | last
      · rw [h_none hlast]
        simp
      · by_cases hle : last ≤ ts
        · by_cases hge : s.checkInterval ≤ ts - last
          · rw [h_due last hlast hle hge]
            exact iff_of_true rfl (Or.inr ⟨last, rfl, Or.inr hge⟩)
          · rw [h_not last hlast hle hge]
            refine iff_of_false (by simp) ?_
            rintro (hno | ⟨l, hl, hor⟩)
            · exact Option.noConfusion hno
            · have hll : last = l := by injection hl
              subst hll
              rcases hor with hlt | hdue
              · omega
              · exact hge hdue
        · rw [h_early last hlast hle]
          exact iff_of_true rfl (Or.inr ⟨last, rfl, Or.inl (by omega)⟩)
    · intro h1
      rcases hlast : s.lastCheckTime with _ | last
      · rw [h_none hlast]
      · by_cases hle : last ≤ ts
        · by_cases hge : s.checkInterval ≤ ts - last
          · rw [h_due last hlast hle hge]
          · rw [h_not last hlast hle hge] at h1; simp at h1
        · rw [h_early last hlast hle]
    · intro h1
      rcases hlast : s.lastCheckTime with _ | last
      · rw [h_none hlast] at h1; simp at h1
      · by_cases hle : last ≤ ts
        · by_cases hge : s.checkInterval ≤ ts - last
          · rw [h_due last hlast hle hge] at h1; simp at h1
          · rw [h_not last hlast hle hge]
        · rw [h_early last hlast hle] at h1; simp at h1
    · intro ts2 _ h1 hle2 hlt2
      have hupd : (s.should_update_available_data ts).2 =
          { s with lastCheckTime := some ts } := by
        rcases hlast : s.lastCheckTime with _ | last
        · rw [h_none hlast]
        · by_cases hle : last ≤ ts
          · by_cases hge : s.checkInterval ≤ ts - last
            · rw [h_due last hlast hle hge]
            · rw [h_not last hlast hle hge] at h1; simp at h1
          · rw [h_early last hlast hle]
      rw [hupd]
      have hc2 : ({ s with lastCheckTime := some ts } : TcpSocket).is_connected = true := hc
      have hnotdue : ¬ s.checkInterval ≤ ts2 - ts := by omega
      simp [TcpSocket.should_update_available_data, hc2, checkedDurationSince, hle2, hnotdue]

/-- Witness for C6: with the default 15 s interval, a connected socket
checked at `t = 0` answers true and immediately re-checked at
`t = 14999` answers false. -/
theorem tcp_should_update_available_data_spec_witness :
    (({ TcpSocket.new 0 with state := TcpState.Connected 1, lastCheckTime := some 0 } : TcpSocket).should_update_available_data 15000).1 = true ∧
    ((({ TcpSocket.new 0 with state := TcpState.Connected 1, lastCheckTime := some 0 } : TcpSocket).should_update_available_data 15000).2.should_update_available_data 29999).1 = false := by
  have h := tcp_should_update_available_data_spec
    ({ TcpSocket.new 0 with state := TcpState.Connected 1, lastCheckTime := some 0 }) 15000
  have h1 : (({ TcpSocket.new 0 with state := TcpState.Connected 1, lastCheckTime := some 0 } : TcpSocket).should_update_available_data 15000).1 = true :=
    (h.2.1 rfl).mpr (Or.inr ⟨0, rfl, Or.inr (by decide)⟩)
  exact ⟨h1, h.2.2.2.2 29999 rfl h1 (by omega) (by decide)⟩

section MapLemmas

variable {V : Type}

theorem mapLookup_append_none (k a : Nat) (v : V) (m : List (Nat × V))
    (hm : mapLookup k m = none) :
    mapLookup k (m ++ [(a, v)]) = if a = k then some v else none := by
  induction m with
  | nil => simp [mapLookup]
  | cons e t ih =>
    by_cases hek : e.1 = k
    · simp [mapLookup, hek] at hm
    · simp only [mapLookup, hek, if_false] at hm
      simp only [List.cons_append, mapLookup, hek, if_false]
      exact ih hm

theorem mapLookup_append_some (k a : Nat) (v w : V) (m : List (Nat × V))
    (hm : mapLookup k m = some w) :
    mapLookup k (m ++ [(a, v)]) = some w := by
  induction m with
  | nil => simp [mapLookup] at hm
  | cons e t ih =>
    by_cases hek : e.1 = k
    · simp only [mapLookup, hek, if_true] at hm
      simp only [List.cons_append, mapLookup, hek, if_true]
      exact hm
    · simp only [mapLookup, hek, if_false] at hm
      simp only [List.cons_append, mapLookup, hek, if_false]
      exact ih hm

theorem mapLookup_replaceVal_ne (k p : Nat) (w : V) (m : List (Nat × V))
    (hk : k ≠ p) :
    mapLookup k (replaceVal p w m) = mapLookup k m := by
  induction m with
  | nil => rfl
  | cons e t ih =>
    by_cases hep : e.1 = p
    · have hpk : ¬ p = k := fun hh => hk hh.symm
      simp [replaceVal, mapLookup, hep, hpk]
      exact ih
    · by_cases hek : e.1 = k
      · simp [replaceVal, mapLookup, hep, hek, hk]
      · simp [replaceVal, mapLookup, hep, hek]
        exact ih

theorem mapLookup_replaceVal_self (p : Nat) (w : V) (m : List (Nat × V)) :
    mapLookup p (replaceVal p w m) = (mapLookup p m).map (fun _ => w) := by
  induction m with
  | nil => rfl
  | cons e t ih =>
    by_cases hep : e.1 = p
    · simp [replaceVal, mapLookup, hep]
    · simp only [replaceVal, hep, if_false, mapLookup]
      exact ih

theorem replaceVal_keys (p : Nat) (w : V) (m : List (Nat × V)) :
    (replaceVal p w m).map Prod.fst = m.map Prod.fst := by
  induction m with
  | nil => rfl
  | cons e t ih =>
    by_cases hep : e.1 = p <;> simp [replaceVal, hep, ih]

theorem mapContains_replaceVal (k p : Nat) (w : V) (m : List (Nat × V)) :
    mapContains k (replaceVal p w m) = mapContains k m := by
  by_cases hkp : k = p
  · subst hkp
    unfold mapContains
    rw [mapLookup_replaceVal_self]
    cases mapLookup k m <;> rfl
  · unfold mapContains
    rw [mapLookup_replaceVal_ne k p w m hkp]

theorem mapLookup_remove_self (k : Nat) (m : List (Nat × V)) :
    mapLookup k (mapRemove k m) = none := by
  induction m with
  | nil => rfl
  | cons e t ih =>
    by_cases hek : e.1 = k
    · simp [mapRemove, hek]
      exact ih
    · simp [mapRemove, mapLookup, hek]
      exact ih

theorem mapLookup_remove_ne (k k2 : Nat) (m : List (Nat × V)) (hne : k2 ≠ k) :
    mapLookup k2 (mapRemove k m) = mapLookup k2 m := by
  induction m with
  | nil => rfl
  | cons e t ih =>
    by_cases hek : e.1 = k
    · have h2 : ¬ k = k2 := fun hh => hne hh.symm
      simp [mapRemove, mapLookup, hek, h2]
      exact ih
    · by_cases hek2 : e.1 = k2
      · simp [mapRemove, mapLookup, hek, hek2, hne]
      · simp [mapRemove, mapLookup, hek, hek2]
        exact ih

theorem mapRemove_sublist (k : Nat) (m : List (Nat × V)) :
    List.Sublist (mapRemove k m) m := by
  induction m with
  | nil => simp [mapRemove]
  | cons e t ih =>
    by_cases hek : e.1 = k
    · simp only [mapRemove, hek, if_true]
      exact ih.cons e
    · simp only [mapRemove, hek, if_false]
      exact ih.cons₂ e

theorem mapRemove_keys_sublist (k : Nat) (m : List (Nat × V)) :
    List.Sublist ((mapRemove k m).map Prod.fst) (m.map Prod.fst) :=
  (mapRemove_sublist k m).map Prod.fst

theorem mapLookup_mem (k : Nat) (v : V) (m : List (Nat × V))
    (h : mapLookup k m = some v) : (k, v) ∈ m := by
  induction m with
  | nil => simp [mapLookup] at h
  | cons e t ih =>
    rcases e with ⟨a, b⟩
    by_cases hek : a = k
    · subst hek
      simp [mapLookup] at h
      subst h
      exact List.mem_cons_self _ _
    · refine List.mem_cons_of_mem _ (ih ?_)
      simpa [mapLookup, hek] using h

theorem mem_mapContains (k : Nat) (v : V) (m : List (Nat × V))
    (h : (k, v) ∈ m) : mapContains k m = true := by
  induction m with
  | nil => simp at h
  | cons e t ih =>
    rcases List.mem_cons.mp h with he | ht
    · simp [mapContains, mapLookup, ← he]
    · by_cases hek : e.1 = k
      · simp [mapContains, mapLookup, hek]
      · simpa [mapContains, mapLookup, hek] using ih ht

theorem mapContains_false_not_key (k : Nat) (m : List (Nat × V))
    (h : mapContains k m = false) : k ∉ m.map Prod.fst := by
  intro hk
  rcases List.mem_map.mp hk with ⟨e, he, hek⟩
  rcases e with ⟨a, b⟩
  simp only at hek
  subst hek
  have := mem_mapContains a b m he
  simp [h] at this

theorem mapLookup_of_mem_nodup (k : Nat) (v : V) (m : List (Nat × V))
    (hn : (m.map Prod.fst).Nodup) (h : (k, v) ∈ m) :
    mapLookup k m = some v := by
  induction m with
  | nil => simp at h
  | cons e t ih =>
    rw [List.map_cons] at hn
    have hhead := (List.nodup_cons.mp hn).1
    have htail := (List.nodup_cons.mp hn).2
    rcases List.mem_cons.mp h with he | ht
    · simp [mapLookup, ← he]
    · by_cases hek : e.1 = k
      · exfalso
        have hkmem : k ∈ t.map Prod.fst :=
          List.mem_map.mpr ⟨(k, v), ht, rfl⟩
        rw [hek] at hhead
        exact hhead hkmem
      · simp only [mapLookup, hek, if_false]
        exact ih htail ht

theorem mapContains_append (k a : Nat) (v : V) (m : List (Nat × V)) :
    mapContains k (m ++ [(a, v)]) = (mapContains k m || decide (a = k)) := by
  cases hm : mapLookup k m with
  | none =>
    unfold mapContains
    rw [mapLookup_append_none k a v m hm, hm]
    by_cases hak : a = k <;> simp [hak]
  | some w =>
    unfold mapContains
    rw [mapLookup_append_some k a v w m hm, hm]
    rfl

theorem vals_nodup_inj (m : List (Nat × Nat))
    (hn : (m.map Prod.snd).Nodup) :
    ∀ a b p, (a, p) ∈ m → (b, p) ∈ m → a = b := by
  induction m with
  | nil => intro a b p ha; simp at ha
  | cons e t ih =>
    intro a b p ha hb
    rw [List.map_cons] at hn
    have hhead := (List.nodup_cons.mp hn).1
    have htail := (List.nodup_cons.mp hn).2
    rcases List.mem_cons.mp ha with hae | hat <;>
      rcases List.mem_cons.mp hb with hbe | hbt
    · have : (a, p) = (b, p) := hae.trans hbe.symm
      injection this
    · exfalso
      have hp : p ∈ t.map Prod.snd := List.mem_map.mpr ⟨(b, p), hbt, rfl⟩
      rw [← hae] at hhead
      exact hhead hp
    · exfalso
      have hp : p ∈ t.map Prod.snd := List.mem_map.mpr ⟨(a, p), hat, rfl⟩
      rw [← hbe] at hhead
      exact hhead hp
    · exact ih htail a b p hat hbt

theorem conn_length_le (mh : List (Nat × Nat)) (mc : List (Nat × V))
    (hnc : (mc.map Prod.fst).Nodup)
    (himp : ∀ p, mapContains p mc = true → ∃ h, mapLookup h mh = some p) :
    mc.length ≤ mh.length := by
  have hsub : mc.map Prod.fst ⊆ mh.map Prod.snd := by
    intro p hp
    rcases List.mem_map.mp hp with ⟨e, he, hek⟩
    rcases e with ⟨p0, q⟩
    simp only at hek
    subst hek
    have hc := mem_mapContains p0 q mc he
    rcases himp p0 hc with ⟨h2, hh2⟩
    exact List.mem_map.mpr ⟨(h2, p0), mapLookup_mem h2 p0 mh hh2, rfl⟩
  have hlen := (List.Nodup.subperm hnc hsub).length_le
  simpa using hlen

theorem mapContains_remove (k p : Nat) (m : List (Nat × V)) :
    mapContains k (mapRemove p m) = if k = p then false else mapContains k m := by
  by_cases hkp : k = p
  · subst hkp
    simp [mapContains, mapLookup_remove_self]
  · simp [mapContains, mapLookup_remove_ne p k m hkp, hkp]

theorem mapContains_false_lookup (k : Nat) (m : List (Nat × V))
    (h : mapContains k m = false) : mapLookup k m = none := by
  unfold mapContains at h
  cases hm : mapLookup k m with
  | none => rfl
  | some w => rw [hm] at h; cases h

theorem nodup_append_singleton {α : Type} (a : α) (l : List α)
    (hn : l.Nodup) (ha : a ∉ l) : (l ++ [a]).Nodup := by
  simp [List.nodup_append, hn, ha]

theorem mapInsert_of_contains (N k : Nat) (v : V) (m : List (Nat × V))
    (hc : mapContains k m = true) :
    mapInsert N k v m = some (replaceVal k v m) := by
  simp [mapInsert, hc]

theorem mapInsert_fresh_room (N k : Nat) (v : V) (m : List (Nat × V))
    (hc : mapContains k m = false) (hlen : m.length < N) :
    mapInsert N k v m = some (m ++ [(k, v)]) := by
  simp [mapInsert, hc, hlen]

theorem mapInsert_fresh_full (N k : Nat) (v : V) (m : List (Nat × V))
    (hc : mapContains k m = false) (hlen : ¬ m.length < N) :
    mapInsert N k v m = none := by
  simp [mapInsert, hc, hlen]

theorem exists_lookup_append (h p q : Nat) (mh : List (Nat × Nat))
    (hfresh : mapLookup h mh = none) :
    (∃ h2, mapLookup h2 (mh ++ [(h, p)]) = some q) ↔
      ((∃ h2, mapLookup h2 mh = some q) ∨ q = p) := by
  constructor
  · rintro ⟨h2, hw⟩
    cases hm : mapLookup h2 mh with
    | some w =>
      rw [mapLookup_append_some h2 h p w mh hm] at hw
      injection hw with hwq
      exact Or.inl ⟨h2, by rw [hm, hwq]⟩
    | none =>
      rw [mapLookup_append_none h2 h p mh hm] at hw
      by_cases hh : h = h2
      · simp only [hh, if_true] at hw
        injection hw with hwq
        exact Or.inr hwq.symm
      · simp only [hh, if_false] at hw
        cases hw
  · rintro (⟨h2, hw⟩ | rfl)
    · exact ⟨h2, mapLookup_append_some h2 h p q mh hw⟩
    · refine ⟨h, ?_⟩
      rw [mapLookup_append_none h h q mh hfresh]
      simp

theorem exists_lookup_remove (h p q : Nat) (mh : List (Nat × Nat))
    (_hn : (mh.map Prod.fst).Nodup) (hinj : (mh.map Prod.snd).Nodup)
    (hlook : mapLookup h mh = some p) :
    (∃ h2, mapLookup h2 (mapRemove h mh) = some q) ↔
      ((∃ h2, mapLookup h2 mh = some q) ∧ q ≠ p) := by
  constructor
  · rintro ⟨h2, hw⟩
    by_cases hh2 : h2 = h
    · subst hh2
      rw [mapLookup_remove_self] at hw
      cases hw
    · rw [mapLookup_remove_ne h h2 mh hh2] at hw
      refine ⟨⟨h2, hw⟩, ?_⟩
      intro hq
      subst hq
      have h1m : (h2, q) ∈ mh := mapLookup_mem h2 q mh hw
      have h2m : (h, q) ∈ mh := mapLookup_mem h q mh hlook
      exact hh2 (vals_nodup_inj mh hinj h2 h q h1m h2m)
  · rintro ⟨⟨h2, hw⟩, hq⟩
    have hh2 : h2 ≠ h := by
      intro hh
      subst hh
      rw [hlook] at hw
      injection hw with hpq
      exact hq hpq.symm
    exact ⟨h2, by rw [mapLookup_remove_ne h h2 mh hh2]; exact hw⟩

end MapLemmas

theorem udp_bind_eq_dup (N h p : Nat) (l : Listener)
    (hc : mapContains h l.handles = true) :
    UdpListener.bind N h p l = (Except.error Error.ListenerError, l) := by
  simp [UdpListener.bind, hc]

theorem udp_bind_eq_full (N h p : Nat) (l : Listener)
    (hcf : mapContains h l.handles = false) (hlen : ¬ l.handles.length < N) :
    UdpListener.bind N h p l = (Except.error Error.ListenerError, l) := by
  simp [UdpListener.bind, hcf, mapInsert_fresh_full N h p l.handles hcf hlen]

theorem udp_bind_eq_replace (N h p : Nat) (l : Listener)
    (hcf : mapContains h l.handles = false) (hlen : l.handles.length < N)
    (hcp : mapContains p l.connections = true) :
    UdpListener.bind N h p l =
      (Except.ok (), { handles := l.handles ++ [(h, p)], connections := replaceVal p [] l.connections }) := by
  simp [UdpListener.bind, hcf, mapInsert_fresh_room N h p l.handles hcf hlen,
    mapInsert_of_contains N p [] l.connections hcp]

theorem udp_bind_eq_append (N h p : Nat) (l : Listener)
    (hcf : mapContains h l.handles = false) (hlen : l.handles.length < N)
    (hcpf : mapContains p l.connections = false)
    (hclen : l.connections.length < N) :
    UdpListener.bind N h p l =
      (Except.ok (), { handles := l.handles ++ [(h, p)], connections := l.connections ++ [(p, [])] }) := by
  simp [UdpListener.bind, hcf, mapInsert_fresh_room N h p l.handles hcf hlen,
    mapInsert_fresh_room N p ([] : List Pending) l.connections hcpf hclen]

theorem udp_bind_eq_conn_full (N h p : Nat) (l : Listener)
    (hcf : mapContains h l.handles = false) (hlen : l.handles.length < N)
    (hcpf : mapContains p l.connections = false)
    (hclen : ¬ l.connections.length < N) :
    UdpListener.bind N h p l =
      (Except.error Error.ListenerError,
        { l with handles := l.handles ++ [(h, p)] }) := by
  simp [UdpListener.bind, hcf, mapInsert_fresh_room N h p l.handles hcf hlen,
    mapInsert_fresh_full N p ([] : List Pending) l.connections hcpf hclen]

theorem listener_conn_le_handles (l : Listener)
    (hwf : ListenerWf l) (hinv : ListenerInv l) :
    l.connections.length ≤ l.handles.length :=
  conn_length_le l.handles l.connections hwf.2 (fun p hp => (hinv p).mp hp)

theorem udp_bind_preserves (N h p : Nat) (l : Listener)
    (hwf : ListenerWf l) (hinv : ListenerInv l) :
    ListenerWf (UdpListener.bind N h p l).2 ∧
      ListenerInv (UdpListener.bind N h p l).2 := by
  by_cases hc : mapContains h l.handles = true
  · rw [udp_bind_eq_dup N h p l hc]
    exact ⟨hwf, hinv⟩
  · have hcf : mapContains h l.handles = false := by
      revert hc; cases mapContains h l.handles <;> simp
    by_cases hlen : l.handles.length < N
    · have hfreshlk : mapLookup h l.handles = none :=
        mapContains_false_lookup h l.handles hcf
      have hkeys : ((l.handles ++ [(h, p)]).map Prod.fst).Nodup := by
        rw [List.map_append]
        exact nodup_append_singleton h (l.handles.map Prod.fst) hwf.1
          (mapContains_false_not_key h l.handles hcf)
      by_cases hcp : mapContains p l.connections = true
      · rw [udp_bind_eq_replace N h p l hcf hlen hcp]
        refine ⟨⟨hkeys, ?_⟩, ?_⟩
        · show ((replaceVal p [] l.connections).map Prod.fst).Nodup
          rw [replaceVal_keys]
          exact hwf.2
        · intro q
          show mapContains q (replaceVal p [] l.connections) = true ↔
            ∃ h2, mapLookup h2 (l.handles ++ [(h, p)]) = some q
          rw [mapContains_replaceVal, exists_lookup_append h p q l.handles hfreshlk]
          by_cases hqp : q = p
          · subst hqp
            simp [hcp]
          · simp only [hqp, or_false]
            exact hinv q
      · have hcpf : mapContains p l.connections = false := by
          revert hcp; cases mapContains p l.connections <;> simp
        have hclen : l.connections.length < N :=
          lt_of_le_of_lt (listener_conn_le_handles l hwf hinv) hlen
        rw [udp_bind_eq_append N h p l hcf hlen hcpf hclen]
        refine ⟨⟨hkeys, ?_⟩, ?_⟩
        · show ((l.connections ++ [(p, [])]).map Prod.fst).Nodup
          rw [List.map_append]
          exact nodup_append_singleton p (l.connections.map Prod.fst) hwf.2
            (mapContains_false_not_key p l.connections hcpf)
        · intro q
          show mapContains q (l.connections ++ [(p, [])]) = true ↔
            ∃ h2, mapLookup h2 (l.handles ++ [(h, p)]) = some q
          rw [mapContains_append, exists_lookup_append h p q l.handles hfreshlk]
          by_cases hqp : q = p
          · subst hqp
            simp
          · have hpq : ¬ p = q := fun hh => hqp hh.symm
            simp [hqp, hpq]
            exact hinv q
    · rw [udp_bind_eq_full N h p l hcf hlen]
      exact ⟨hwf, hinv⟩

theorem udp_bind_preserves_inj (N h p : Nat) (l : Listener)
    (hwf : ListenerWf l) (hinv : ListenerInv l) (hinj : ListenerInj l)
    (hfresh : mapContains p l.connections = false) :
    ListenerInj (UdpListener.bind N h p l).2 := by
  by_cases hc : mapContains h l.handles = true
  · rw [udp_bind_eq_dup N h p l hc]
    exact hinj
  · have hcf : mapContains h l.handles = false := by
      revert hc; cases mapContains h l.handles <;> simp
    by_cases hlen : l.handles.length < N
    · have hclen : l.connections.length < N :=
        lt_of_le_of_lt (listener_conn_le_handles l hwf hinv) hlen
      rw [udp_bind_eq_append N h p l hcf hlen hfresh hclen]
      show ((l.handles ++ [(h, p)]).map Prod.snd).Nodup
      rw [List.map_append]
      refine nodup_append_singleton p (l.handles.map Prod.snd) hinj ?_
      intro hmem
      rcases List.mem_map.mp hmem with ⟨e, he, hep⟩
      rcases e with ⟨h2, p2⟩
      simp only at hep
      rw [hep] at he
      have hlk : mapLookup h2 l.handles = some p :=
        mapLookup_of_mem_nodup h2 p l.handles hwf.1 he
      have : mapContains p l.connections = true := (hinv p).mpr ⟨h2, hlk⟩
      rw [hfresh] at this
      cases this
    · rw [udp_bind_eq_full N h p l hcf hlen]
      exact hinj

theorem udp_unbind_preserves (h : Nat) (l : Listener)
    (hwf : ListenerWf l) (hinv : ListenerInv l) (hinj : ListenerInj l) :
    ListenerWf (UdpListener.unbind h l).2 ∧
      ListenerInv (UdpListener.unbind h l).2 ∧
      ListenerInj (UdpListener.unbind h l).2 := by
  unfold UdpListener.unbind
  cases hp : mapLookup h l.handles with
  | none =>
    simp only [hp]
    exact ⟨hwf, hinv, hinj⟩
  | some p =>
    simp only [hp]
    refine ⟨⟨?_, ?_⟩, ?_, ?_⟩
    · exact List.Nodup.sublist (mapRemove_keys_sublist h l.handles) hwf.1
    · exact List.Nodup.sublist (mapRemove_keys_sublist p l.connections) hwf.2
    · intro q
      show mapContains q (mapRemove p l.connections) = true ↔
        ∃ h2, mapLookup h2 (mapRemove h l.handles) = some q
      rw [mapContains_remove q p l.connections,
        exists_lookup_remove h p q l.handles hwf.1 hinj hp]
      by_cases hqp : q = p
      · simp [hqp]
      · simp only [hqp, if_false, ne_eq, not_false_iff, and_true]
        exact hinv q
    · exact List.Nodup.sublist ((mapRemove_sublist h l.handles).map Prod.snd) hinj

theorem udp_push_preserves (L port : Nat) (x : Pending) (l : Listener)
    (hwf : ListenerWf l) (hinv : ListenerInv l) :
    (UdpListener.pushIncoming L port x l).handles = l.handles ∧
      ListenerWf (UdpListener.pushIncoming L port x l) ∧
      ListenerInv (UdpListener.pushIncoming L port x l) := by
  unfold UdpListener.pushIncoming
  cases hq : mapLookup port l.connections with
  | none =>
    simp only [hq]
    exact ⟨by simp, hwf, hinv⟩
  | some q =>
    cases he : queueEnqueue L x q with
    | none =>
      simp only [hq, he]
      exact ⟨by simp, hwf, hinv⟩
    | some q2 =>
      simp only [hq, he]
      refine ⟨by simp, ⟨hwf.1, ?_⟩, ?_⟩
      · show ((replaceVal port q2 l.connections).map Prod.fst).Nodup
        rw [replaceVal_keys]
        exact hwf.2
      · intro q3
        show mapContains q3 (replaceVal port q2 l.connections) = true ↔
          ∃ h2, mapLookup h2 l.handles = some q3
        rw [mapContains_replaceVal]
        exact hinv q3

theorem udp_get_remote_preserves (h : Nat) (l : Listener)
    (hwf : ListenerWf l) (hinv : ListenerInv l) :
    (UdpListener.get_remote h l).2.handles = l.handles ∧
      ListenerWf (UdpListener.get_remote h l).2 ∧
      ListenerInv (UdpListener.get_remote h l).2 := by
  unfold UdpListener.get_remote
  cases hp : mapLookup h l.handles with
  | none =>
    simp only [hp]
    exact ⟨by simp, hwf, hinv⟩
  | some port =>
    cases hq : mapLookup port l.connections with
    | none =>
      simp only [hp, hq]
      exact ⟨by simp, hwf, hinv⟩
    | some q =>
      cases hd : queueDequeue q with
      | none =>
        simp only [hp, hq, hd]
        exact ⟨by simp, hwf, hinv⟩
      | some xq =>
        simp only [hp, hq, hd]
        refine ⟨by simp, ⟨hwf.1, ?_⟩, ?_⟩
        · show ((replaceVal port xq.2 l.connections).map Prod.fst).Nodup
          rw [replaceVal_keys]
          exact hwf.2
        · intro q3
          show mapContains q3 (replaceVal port xq.2 l.connections) = true ↔
            ∃ h2, mapLookup h2 l.handles = some q3
          rw [mapContains_replaceVal]
          exact hinv q3

theorem tcp_bind_state_eq (N h p : Nat) (l : Listener) :
    (TcpListener.bind N h p l).2 = (UdpListener.bind N h p l).2 := by
  by_cases hc : mapContains h l.handles = true
  · simp [TcpListener.bind, UdpListener.bind, hc]
  · have hcf : mapContains h l.handles = false := by
      revert hc; cases mapContains h l.handles <;> simp
    cases h1 : mapInsert N h p l.handles with
    | none => simp [TcpListener.bind, UdpListener.bind, hcf, h1]
    | some hs =>
      cases h2 : mapInsert N p ([] : List Pending) l.connections <;>
        simp [TcpListener.bind, UdpListener.bind, hcf, h1, h2]

theorem tcp_accept_state_eq (h : Nat) (l : Listener) :
    (TcpListener.accept h l).2 = (UdpListener.get_remote h l).2 := by
  unfold TcpListener.accept UdpListener.get_remote
  cases hp : mapLookup h l.handles with
  | none => simp
  | some port =>
    cases hq : mapLookup port l.connections with
    | none => simp [hq]
    | some q =>
      cases hd : queueDequeue q with
      | none => simp [hq, hd]
      | some xq => simp [hq, hd]

theorem tcp_push_state_eq (L port : Nat) (x : Pending) (l : Listener) :
    TcpListener.pushIncoming L port x l = UdpListener.pushIncoming L port x l := by
  unfold TcpListener.pushIncoming UdpListener.pushIncoming
  cases hq : mapLookup port l.connections with
  | none => rfl
  | some q => cases he : queueEnqueue L x q <;> rfl

theorem udp_run_preserves (N L : Nat) (ops : List UdpOp) :
    ∀ l, ListenerWf l → ListenerInv l → ListenerInj l →
      UdpListener.goodRun N L l ops = true →
      ListenerWf (UdpListener.run N L l ops) ∧
        ListenerInv (UdpListener.run N L l ops) ∧
        ListenerInj (UdpListener.run N L l ops) := by
  induction ops with
  | nil =>
    intro l hwf hinv hinj _
    exact ⟨hwf, hinv, hinj⟩
  | cons op ops ih =>
    intro l hwf hinv hinj hgood
    simp only [UdpListener.goodRun, Bool.and_eq_true] at hgood
    rcases hgood with ⟨hg1, hg2⟩
    cases op with
    | bindOp h p =>
      have hfresh : mapContains p l.connections = false := by
        simpa [UdpListener.bindFresh] using hg1
      have hb := udp_bind_preserves N h p l hwf hinv
      have hbinj := udp_bind_preserves_inj N h p l hwf hinv hinj hfresh
      exact ih _ hb.1 hb.2 hbinj hg2
    | unbindOp h =>
      have hu := udp_unbind_preserves h l hwf hinv hinj
      exact ih _ hu.1 hu.2.1 hu.2.2 hg2
    | pushOp p x =>
      have hp := udp_push_preserves L p x l hwf hinv
      have hpinj : ListenerInj (UdpListener.pushIncoming L p x l) := by
        unfold ListenerInj
        rw [hp.1]
        exact hinj
      exact ih _ hp.2.1 hp.2.2 hpinj hg2
    | getRemoteOp h =>
      have hp := udp_get_remote_preserves h l hwf hinv
      have hpinj : ListenerInj (UdpListener.get_remote h l).2 := by
        unfold ListenerInj
        rw [hp.1]
        exact hinj
      exact ih _ hp.2.1 hp.2.2 hpinj hg2

theorem tcp_run_preserves (N L : Nat) (ops : List TcpOp) :
    ∀ l, ListenerWf l → ListenerInv l →
      ListenerWf (TcpListener.run N L l ops) ∧
        ListenerInv (TcpListener.run N L l ops) := by
  induction ops with
  | nil =>
    intro l hwf hinv
    exact ⟨hwf, hinv⟩
  | cons op ops ih =>
    intro l hwf hinv
    cases op with
    | bindOp h p =>
      have hb := udp_bind_preserves N h p l hwf hinv
      have hrw : TcpListener.run N L l (TcpOp.bindOp h p :: ops) =
          TcpListener.run N L (UdpListener.bind N h p l).2 ops := by
        show TcpListener.run N L (TcpListener.bind N h p l).2 ops = _
        rw [tcp_bind_state_eq N h p l]
      rw [hrw]
      exact ih _ hb.1 hb.2
    | pushOp p x =>
      have hp := udp_push_preserves L p x l hwf hinv
      have hrw : TcpListener.run N L l (TcpOp.pushOp p x :: ops) =
          TcpListener.run N L (UdpListener.pushIncoming L p x l) ops := by
        show TcpListener.run N L (TcpListener.pushIncoming L p x l) ops = _
        rw [tcp_push_state_eq L p x l]
      rw [hrw]
      exact ih _ hp.2.1 hp.2.2
    | acceptOp h =>
      have hp := udp_get_remote_preserves h l hwf hinv
      have hrw : TcpListener.run N L l (TcpOp.acceptOp h :: ops) =
          TcpListener.run N L (UdpListener.get_remote h l).2 ops := by
        show TcpListener.run N L (TcpListener.accept h l).2 ops = _
        rw [tcp_accept_state_eq h l]
      rw [hrw]
      exact ih _ hp.2.1 hp.2.2

/-- C8 (amended): for the TCP listener, a port has a pending-connection
queue exactly when some handle is bound to it, after every sequence of
bind/push/accept operations from the initial state; for the UDP
listener (which adds `unbind`) the same invariant holds for every
sequence in which `bind` never targets a port that is already bound —
without that proviso `unbind` can strand a second handle sharing the
port (see the counterexample). -/
theorem listener_port_queue_iff_handle_bound :
    (∀ (N L : Nat) (ops : List TcpOp),
      ListenerInv (TcpListener.run N L TcpListener.new ops)) ∧
    (∀ (N L : Nat) (ops : List UdpOp),
      UdpListener.goodRun N L UdpListener.new ops = true →
      ListenerInv (UdpListener.run N L UdpListener.new ops)) := by
  have hwf : ListenerWf TcpListener.new :=
    ⟨by simp [TcpListener.new], by simp [TcpListener.new]⟩
  have hinv : ListenerInv TcpListener.new := by
    intro p
    simp [mapContains, mapLookup, TcpListener.new]
  have hinj : ListenerInj TcpListener.new := by
    simp [ListenerInj, TcpListener.new]
  constructor
  · intro N L ops
    exact (tcp_run_preserves N L ops TcpListener.new hwf hinv).2
  · intro N L ops hgood
    exact (udp_run_preserves N L ops UdpListener.new hwf hinv hinj hgood).2.1

/-- C8 counterexample: on the UDP listener, binding handles 1 and 2 to
the same port 80 and then unbinding handle 1 removes port 80's queue
while handle 2 stays bound to 80, so the iff invariant fails on this
reachable state. -/
theorem listener_port_queue_iff_handle_bound_cex :
    ¬ ListenerInv (UdpListener.run 4 4 UdpListener.new
      [UdpOp.bindOp 1 80, UdpOp.bindOp 2 80, UdpOp.unbindOp 1]) := by
  intro hinv
  have h80 := (hinv 80).mpr ⟨2, by decide⟩
  exact absurd h80 (by decide)

/-- Witness for the amended C8: a bind/push/get_remote/unbind sequence
with a fresh port satisfies the proviso and the invariant. -/
theorem listener_port_queue_iff_handle_bound_witness :
    UdpListener.goodRun 4 4 UdpListener.new
      [UdpOp.bindOp 1 80, UdpOp.pushOp 80 (7, 9), UdpOp.getRemoteOp 1,
        UdpOp.unbindOp 1] = true ∧
    ListenerInv (UdpListener.run 4 4 UdpListener.new
      [UdpOp.bindOp 1 80, UdpOp.pushOp 80 (7, 9), UdpOp.getRemoteOp 1,
        UdpOp.unbindOp 1]) :=
  ⟨by decide, listener_port_queue_iff_handle_bound.2 4 4 _ (by decide)⟩

theorem tcp_bind_eq_replace (N h p : Nat) (l : Listener)
    (hcf : mapContains h l.handles = false) (hlen : l.handles.length < N)
    (hcp : mapContains p l.connections = true) :
    TcpListener.bind N h p l =
      (Except.ok (), { handles := l.handles ++ [(h, p)], connections := replaceVal p [] l.connections }) := by
  simp [TcpListener.bind, hcf, mapInsert_fresh_room N h p l.handles hcf hlen,
    mapInsert_of_contains N p [] l.connections hcp]

theorem tcp_bind_eq_append (N h p : Nat) (l : Listener)
    (hcf : mapContains h l.handles = false) (hlen : l.handles.length < N)
    (hcpf : mapContains p l.connections = false)
    (hclen : l.connections.length < N) :
    TcpListener.bind N h p l =
      (Except.ok (), { handles := l.handles ++ [(h, p)], connections := l.connections ++ [(p, [])] }) := by
  simp [TcpListener.bind, hcf, mapInsert_fresh_room N h p l.handles hcf hlen,
    mapInsert_fresh_room N p ([] : List Pending) l.connections hcpf hclen]

theorem udp_available_eq (h p : Nat) (q : List Pending) (l : Listener)
    (hh : mapLookup h l.handles = some p)
    (hq : mapLookup p l.connections = some q) :
    UdpListener.available h l = Except.ok (!q.isEmpty) := by
  simp [UdpListener.available, hh, hq]

theorem tcp_available_eq (h p : Nat) (q : List Pending) (l : Listener)
    (hh : mapLookup h l.handles = some p)
    (hq : mapLookup p l.connections = some q) :
    TcpListener.available h l = Except.ok (!q.isEmpty) := by
  simp [TcpListener.available, hh, hq]

theorem udp_get_remote_eq_cons (h p : Nat) (x : Pending) (q : List Pending)
    (l : Listener) (hh : mapLookup h l.handles = some p)
    (hq : mapLookup p l.connections = some (x :: q)) :
    UdpListener.get_remote h l =
      (Except.ok x, { l with connections := replaceVal p q l.connections }) := by
  simp [UdpListener.get_remote, hh, hq, queueDequeue]

theorem tcp_accept_eq_cons (h p : Nat) (x : Pending) (q : List Pending)
    (l : Listener) (hh : mapLookup h l.handles = some p)
    (hq : mapLookup p l.connections = some (x :: q)) :
    TcpListener.accept h l =
      (Except.ok x, { l with connections := replaceVal p q l.connections }) := by
  simp [TcpListener.accept, hh, hq, queueDequeue]

theorem udp_get_remote_eq_empty (h p : Nat) (l : Listener)
    (hh : mapLookup h l.handles = some p)
    (hq : mapLookup p l.connections = some []) :
    UdpListener.get_remote h l = (Except.error Error.ListenerError, l) := by
  simp [UdpListener.get_remote, hh, hq, queueDequeue]

theorem tcp_accept_eq_empty (h p : Nat) (l : Listener)
    (hh : mapLookup h l.handles = some p)
    (hq : mapLookup p l.connections = some []) :
    TcpListener.accept h l = (Except.error (), l) := by
  simp [TcpListener.accept, hh, hq, queueDequeue]

theorem udp_get_remote_eq_unbound (h : Nat) (l : Listener)
    (hh : mapLookup h l.handles = none) :
    UdpListener.get_remote h l = (Except.error Error.ListenerError, l) := by
  simp [UdpListener.get_remote, hh]

theorem tcp_accept_eq_unbound (h : Nat) (l : Listener)
    (hh : mapLookup h l.handles = none) :
    TcpListener.accept h l = (Except.error (), l) := by
  simp [TcpListener.accept, hh]

theorem udp_push_eq (L p : Nat) (x : Pending) (q q2 : List Pending)
    (l : Listener) (hq : mapLookup p l.connections = some q)
    (he : queueEnqueue L x q = some q2) :
    UdpListener.pushIncoming L p x l =
      { l with connections := replaceVal p q2 l.connections } := by
  simp [UdpListener.pushIncoming, hq, he]

/-- C9: after a successful `bind(h, p)` on a previously-unbound handle,
pushing `(h2, addr)` into `incoming(p)` makes `available(h)` true, and
`accept(h)` (TCP) / `get_remote(h)` (UDP) returns exactly that pair and
leaves `p`'s queue empty; a second dequeue on the emptied queue fails,
as does a dequeue on a handle that was never bound.  The hypotheses are
the success conditions of `bind` (free handle and map room) and a queue
capacity of at least one pending entry. -/
theorem listener_bind_push_accept_spec (N L : Nat) (l : Listener)
    (h p h2 : Nat) (x : Pending)
    (hfh : mapContains h l.handles = false)
    (hroomH : l.handles.length < N)
    (hroomC : mapContains p l.connections = true ∨ l.connections.length < N)
    (hL : 2 ≤ L) :
    (UdpListener.bind N h p l).1 = Except.ok () ∧
    (TcpListener.bind N h p l).1 = Except.ok () ∧
    UdpListener.available h
      (UdpListener.pushIncoming L p x (UdpListener.bind N h p l).2) =
      Except.ok true ∧
    TcpListener.available h
      (TcpListener.pushIncoming L p x (TcpListener.bind N h p l).2) =
      Except.ok true ∧
    (UdpListener.get_remote h
      (UdpListener.pushIncoming L p x (UdpListener.bind N h p l).2)).1 =
      Except.ok x ∧
    (TcpListener.accept h
      (TcpListener.pushIncoming L p x (TcpListener.bind N h p l).2)).1 =
      Except.ok x ∧
    UdpListener.incoming p
      (UdpListener.get_remote h
        (UdpListener.pushIncoming L p x (UdpListener.bind N h p l).2)).2 =
      some [] ∧
    (UdpListener.get_remote h
      (UdpListener.get_remote h
        (UdpListener.pushIncoming L p x (UdpListener.bind N h p l).2)).2).1 =
      Except.error Error.ListenerError ∧
    (TcpListener.accept h
      (TcpListener.accept h
        (TcpListener.pushIncoming L p x (TcpListener.bind N h p l).2)).2).1 =
      Except.error () ∧
    (mapContains h2 l.handles = false →
      (UdpListener.get_remote h2 l).1 = Except.error Error.ListenerError ∧
      (TcpListener.accept h2 l).1 = Except.error ()) := by
  have hfl : mapLookup h l.handles = none :=
    mapContains_false_lookup h l.handles hfh
  have hstate : ∃ c1, UdpListener.bind N h p l = (Except.ok (), c1) ∧
      TcpListener.bind N h p l = (Except.ok (), c1) ∧
      c1.handles = l.handles ++ [(h, p)] ∧
      mapLookup p c1.connections = some [] := by
    by_cases hcp : mapContains p l.connections = true
    · refine ⟨_, udp_bind_eq_replace N h p l hfh hroomH hcp,
        tcp_bind_eq_replace N h p l hfh hroomH hcp, rfl, ?_⟩
      show mapLookup p (replaceVal p [] l.connections) = some []
      rw [mapLookup_replaceVal_self]
      obtain ⟨q0, hq0⟩ := Option.isSome_iff_exists.mp hcp
      rw [hq0]
      rfl
    · have hcpf : mapContains p l.connections = false := by
        revert hcp; cases mapContains p l.connections <;> simp
      have hclen : l.connections.length < N := by
        rcases hroomC with hc | hc
        · rw [hcpf] at hc; cases hc
        · exact hc
      refine ⟨_, udp_bind_eq_append N h p l hfh hroomH hcpf hclen,
        tcp_bind_eq_append N h p l hfh hroomH hcpf hclen, rfl, ?_⟩
      show mapLookup p (l.connections ++ [(p, [])]) = some []
      rw [mapLookup_append_none p p ([] : List Pending) l.connections
        (mapContains_false_lookup p l.connections hcpf)]
      simp
  obtain ⟨c1, hub, htb, hch, hcp1⟩ := hstate
  have hh1 : mapLookup h c1.handles = some p := by
    rw [hch, mapLookup_append_none h h p l.handles hfl]
    simp
  have henq : queueEnqueue L x [] = some [x] := by
    simp [queueEnqueue]
    omega
  have hpush : UdpListener.pushIncoming L p x c1 =
      { c1 with connections := replaceVal p [x] c1.connections } :=
    udp_push_eq L p x [] [x] c1 hcp1 henq
  have hh2 : mapLookup h
      ({ c1 with connections := replaceVal p [x] c1.connections } : Listener).handles =
      some p := hh1
  have hp2 : mapLookup p
      ({ c1 with connections := replaceVal p [x] c1.connections } : Listener).connections =
      some [x] := by
    show mapLookup p (replaceVal p [x] c1.connections) = some [x]
    rw [mapLookup_replaceVal_self, hcp1]
    rfl
  have hgr1 := udp_get_remote_eq_cons h p x []
    ({ c1 with connections := replaceVal p [x] c1.connections }) hh2 hp2
  have htac1 := tcp_accept_eq_cons h p x []
    ({ c1 with connections := replaceVal p [x] c1.connections }) hh2 hp2
  have hp3 : mapLookup p
      (replaceVal p ([] : List Pending)
        (({ c1 with connections := replaceVal p [x] c1.connections } : Listener)).connections) =
      some [] := by
    show mapLookup p (replaceVal p [] (replaceVal p [x] c1.connections)) = some []
    rw [mapLookup_replaceVal_self, mapLookup_replaceVal_self, hcp1]
    rfl
  have hgr2 := udp_get_remote_eq_empty h p
    ({ c1 with connections :=
      replaceVal p [] (replaceVal p [x] c1.connections) }) hh1 hp3
  have htac2 := tcp_accept_eq_empty h p
    ({ c1 with connections :=
      replaceVal p [] (replaceVal p [x] c1.connections) }) hh1 hp3
  have htpush : TcpListener.pushIncoming L p x c1 =
      { c1 with connections := replaceVal p [x] c1.connections } := by
    rw [tcp_push_state_eq]
    exact hpush
  refine ⟨by rw [hub], by rw [htb], ?_, ?_, ?_, ?_, ?_, ?_, ?_, ?_⟩
  · rw [hub]
    show UdpListener.available h (UdpListener.pushIncoming L p x c1) = Except.ok true
    rw [hpush, udp_available_eq h p [x] _ hh2 hp2]
    rfl
  · rw [htb]
    show TcpListener.available h (TcpListener.pushIncoming L p x c1) = Except.ok true
    rw [htpush, tcp_available_eq h p [x] _ hh2 hp2]
    rfl
  · rw [hub]
    show (UdpListener.get_remote h (UdpListener.pushIncoming L p x c1)).1 = Except.ok x
    rw [hpush, hgr1]
  · rw [htb]
    show (TcpListener.accept h (TcpListener.pushIncoming L p x c1)).1 = Except.ok x
    rw [htpush, htac1]
  · rw [hub]
    show UdpListener.incoming p
      (UdpListener.get_remote h (UdpListener.pushIncoming L p x c1)).2 = some []
    rw [hpush, hgr1]
    show mapLookup p (replaceVal p [] (replaceVal p [x] c1.connections)) = some []
    rw [mapLookup_replaceVal_self, mapLookup_replaceVal_self, hcp1]
    rfl
  · rw [hub]
    show (UdpListener.get_remote h
      (UdpListener.get_remote h (UdpListener.pushIncoming L p x c1)).2).1 =
      Except.error Error.ListenerError
    rw [hpush, hgr1]
    show (UdpListener.get_remote h _).1 = Except.error Error.ListenerError
    rw [hgr2]
  · rw [htb]
    show (TcpListener.accept h
      (TcpListener.accept h (TcpListener.pushIncoming L p x c1)).2).1 =
      Except.error ()
    rw [htpush, htac1]
    show (TcpListener.accept h _).1 = Except.error ()
    rw [htac2]
  · intro hfh2
    have hfl2 : mapLookup h2 l.handles = none :=
      mapContains_false_lookup h2 l.handles hfh2
    exact ⟨by rw [udp_get_remote_eq_unbound h2 l hfl2],
      by rw [tcp_accept_eq_unbound h2 l hfl2]⟩

/-- Witness for C9: on a fresh listener, bind handle 1 to port 80, push
the pending pair (7, 42), and `get_remote(1)` returns exactly it. -/
theorem listener_bind_push_accept_spec_witness :
    (UdpListener.get_remote 1 (UdpListener.pushIncoming 4 80 (7, 42)
      (UdpListener.bind 4 1 80 UdpListener.new).2)).1 = Except.ok (7, 42) :=
  (listener_bind_push_accept_spec 4 4 UdpListener.new 1 80 9 (7, 42)
    (by decide) (by decide) (Or.inr (by decide)) (by decide)).2.2.2.2.1

/-- C10: binding a second, previously-unbound handle `h2` to a port `p`
already bound by `h1` succeeds (given room in the handle map) and
replaces `p`'s pending queue with a fresh empty queue, discarding every
queued pair, while `h1` stays mapped to `p`; the TCP and UDP variants
produce the same state. -/
theorem listener_rebind_resets_queue (N : Nat) (l : Listener)
    (h1 h2 p : Nat) (q : List Pending)
    (hl1 : mapLookup h1 l.handles = some p)
    (hqe : mapLookup p l.connections = some q)
    (_hne : q ≠ [])
    (hfh2 : mapContains h2 l.handles = false)
    (hroom : l.handles.length < N) :
    (UdpListener.bind N h2 p l).1 = Except.ok () ∧
    (TcpListener.bind N h2 p l).1 = Except.ok () ∧
    mapLookup h1 (UdpListener.bind N h2 p l).2.handles = some p ∧
    mapLookup h2 (UdpListener.bind N h2 p l).2.handles = some p ∧
    UdpListener.incoming p (UdpListener.bind N h2 p l).2 = some [] ∧
    (TcpListener.bind N h2 p l).2 = (UdpListener.bind N h2 p l).2 := by
  have hcp : mapContains p l.connections = true := by
    simp [mapContains, hqe]
  have hb := udp_bind_eq_replace N h2 p l hfh2 hroom hcp
  have htb := tcp_bind_eq_replace N h2 p l hfh2 hroom hcp
  refine ⟨by rw [hb], by rw [htb], ?_, ?_, ?_, by rw [hb, htb]⟩
  · rw [hb]
    show mapLookup h1 (l.handles ++ [(h2, p)]) = some p
    exact mapLookup_append_some h1 h2 p p l.handles hl1
  · rw [hb]
    show mapLookup h2 (l.handles ++ [(h2, p)]) = some p
    rw [mapLookup_append_none h2 h2 p l.handles
      (mapContains_false_lookup h2 l.handles hfh2)]
    simp
  · rw [hb]
    show mapLookup p (replaceVal p [] l.connections) = some []
    rw [mapLookup_replaceVal_self, hqe]
    rfl

/-- Witness for C10: handle 1 is bound to port 80 with one pending
pair; binding handle 2 to port 80 empties the queue. -/
theorem listener_rebind_resets_queue_witness :
    UdpListener.incoming 80 (UdpListener.bind 4 2 80
      { handles := [(1, 80)], connections := [(80, [(5, 6)])] }).2 = some [] :=
  (listener_rebind_resets_queue 4
    { handles := [(1, 80)], connections := [(80, [(5, 6)])] } 1 2 80 [(5, 6)]
    (by decide) (by decide) (by decide) (by decide) (by decide)).2.2.2.2.1

end UbloxSockets
